import Mathlib

/-!
Shallow embedding of the form-validation engine vendored in this repository
(the Bootstrap Validator plugin, `Validator` class, version 0.11.5, in
src/js/js_Nw_mKFdjRvmMB_5MbpMI4KITQOavDkuf2e2ohKCj1AI.js, lines 2299-2650).

DOM state is reified into explicit per-field records: jQuery `data(...)`
slots become `Option` fields, CSS classes become booleans, timers and
jQuery deferreds become tokens drawn from a fresh counter, and the
asynchronous remote check becomes an explicit event (`Op.remote`) whose
application is guarded exactly the way a resolved-vs-rejected jQuery
deferred guards its `done` callbacks.
-/

namespace BsValidator

/-- A JavaScript value as returned by the source helper `getValue`:
a string (from `$el.val()`) or a boolean (checkbox / radio group). -/
inductive JSVal where
  | str (s : String)
  | bool (b : Bool)
deriving DecidableEq

/-- JavaScript truthiness of a `getValue` result: the empty string and
`false` are falsy, everything else is truthy. -/
def jsTruthy : JSVal → Bool
  | .str s => !s.isEmpty
  | .bool b => b

/-- The kind of an input element, as distinguished by `getValue`. -/
inductive FieldKind where
  | text
  | checkbox
  | radio
deriving DecidableEq

/-- The element's native `ValidityState`, read by the `native` validator and
by `getValidityStateError` in `runValidators`. -/
structure ValidityState where
  valid : Bool
  typeMismatch : Bool
  patternMismatch : Bool
  stepMismatch : Bool
  rangeOverflow : Bool
  rangeUnderflow : Bool
  valueMissing : Bool
deriving DecidableEq

/-- Which feedback icon class (`options.feedback.success` /
`options.feedback.error`) is currently on the field's
`.form-control-feedback` element. -/
inductive Feedback where
  | success
  | error
deriving DecidableEq

/-- The reified callback of a `window.setTimeout` created by
`Validator.prototype.defer`: either the deferred `showErrors` display, or
the remote-check `$.get` for the deferred identified by `tok`.  The target
index list is the jQuery set the callback was bound to. -/
inductive TimerPayload where
  | showErrs (tgs : List Nat)
  | remoteGet (tgs : List Nat) (tok : Nat)
deriving DecidableEq

/-- One input element together with the jQuery `data(...)` slots and CSS
classes the validator plugin reads and writes.

`errors` is `data('bs.validator.errors')`, `deferredTok` identifies the
stored `data('bs.validator.deferred')` (a fresh token per `runValidators`
call; the previous deferred is rejected by being superseded),
`timerPayload`/`timeoutData` model the live debounce timer and the stored
`data('bs.validator.timeout')` handle, `blockHtml`/`blockOrig` are the
`.help-block.with-errors` contents and its saved
`data('bs.validator.originalContent')`, and `groupError`/`groupSuccess`
are the `has-error has-danger` / `has-success` classes on the enclosing
`.form-group`. -/
structure Field where
  name : String
  kind : FieldKind
  value : String
  checked : Bool
  required : Bool
  validity : ValidityState
  validationMessage : String
  dataMatch : Option String
  dataMinlength : Option Nat
  dataRemote : Option String
  dataCustom : List String
  dataKeyError : List (String × String)
  dataTypeError : Option String
  dataPatternError : Option String
  dataStepError : Option String
  dataMaxError : Option String
  dataMinError : Option String
  dataRequiredError : Option String
  dataError : Option String
  errors : Option (List String)
  deferredTok : Option Nat
  timerPayload : Option TimerPayload
  timeoutData : Option Nat
  blockHtml : String
  blockOrig : Option String
  groupError : Bool
  groupSuccess : Bool
  hasFeedback : Bool
  feedback : Option Feedback
deriving DecidableEq

/-- The `done` callback registered by `validateInput` on a pending
(remote-check) deferred: the variables its closure captured. -/
structure DoneInfo where
  tok : Nat
  fieldIdx : Nat
  targets : List Nat
  deferErrors : Bool
  prevErrors : Option (List String)
deriving DecidableEq

/-- Result of one validator predicate call: a JS return value (a message
string, or `none` for a falsy return), or an uncaught exception. -/
inductive VOut where
  | res (r : Option String)
  | exn

/-- A validator predicate.  The source predicates take the jQuery element;
here they get the form's field list (for cross-field lookups via `$(...)`)
and the field itself. -/
def ValidatorFn : Type := List Field → Field → VOut

/-- The recognized options of the plugin (`Validator.DEFAULTS` keys that
the engine branches on). -/
structure Options where
  delay : Nat
  html : Bool
  disable : Bool
  focus : Bool
  custom : List (String × ValidatorFn)

/-- The engine state: the `Validator` instance plus the DOM state it owns.
`dones` holds the `done` callbacks attached to still-pending deferreds,
`rejected` the tokens of deferreds on which `.reject()` has been called
(resolving a rejected deferred is a no-op, so its `done` callbacks never
fire), `btnDisabled` is the `disabled` class on the submit controls, and
`fresh` is a counter supplying distinct deferred tokens and timer
handles.  A field's `deferredTok` slot is only a reference: removing the
slot (as `reset()` does) neither rejects nor resolves the deferred
itself. -/
structure VState where
  options : Options
  fields : List Field
  dones : List DoneInfo
  rejected : List Nat
  btnDisabled : Bool
  fresh : Nat

/-! ## List helpers -/

/-- Apply `g` to the fields at the given indices (a jQuery set update),
leaving other entries unchanged. -/
def applyAtGo (tgs : List Nat) (g : Field → Field) : Nat → List Field → List Field
  | _, [] => []
  | n, f :: fs => (if tgs.contains n then g f else f) :: applyAtGo tgs g (n + 1) fs

/-- Apply `g` to the fields at the given indices. -/
def applyAt (tgs : List Nat) (g : Field → Field) (fs : List Field) : List Field :=
  applyAtGo tgs g 0 fs

/-- Indices of the inputs matching `input[name="nm"]` within the form. -/
def nameTargets (fs : List Field) (nm : String) : List Nat :=
  (List.range fs.length).filter (fun j => (fs[j]?).map Field.name = some nm)

/-- The jQuery set `validateInput` operates on: for a radio it is expanded
to `input[name="..."]`, otherwise the single element. -/
def targetsFor (s : VState) (i : Nat) : List Nat :=
  match s.fields[i]? with
  | some f => if f.kind = FieldKind.radio then nameTargets s.fields f.name else [i]
  | none => [i]

/-- Resolution of the `data-match` selector: `$(target)` modelled as
lookup of the first field with that name. -/
def findName (fs : List Field) (sel : String) : Option Field :=
  fs.find? (fun g => g.name == sel)

/-! ## `getValue` and submit gating predicates -/

/-- Embeds the source helper `getValue`: checkbox → `prop('checked')`,
radio → whether any `[name="..."]:checked` element exists (the selector is
name-based, so it sees every checkable element sharing the name),
otherwise `$el.val()`. -/
def getValueF (fs : List Field) (f : Field) : JSVal :=
  match f.kind with
  | .checkbox => .bool f.checked
  | .radio => .bool (fs.any (fun g =>
      g.name == f.name && !(g.kind == FieldKind.text) && g.checked))
  | .text => .str f.value

/-- The `fieldIncomplete` test inside `isIncomplete`: a string value is
empty after `$.trim`, a boolean value is `false`. -/
def incompleteVal : JSVal → Bool
  | .str v => v.trim.isEmpty
  | .bool b => !b

/-- Embeds `Validator.prototype.hasErrors`: some input holds a non-empty
stored error list. -/
def hasErrors (s : VState) : Bool :=
  s.fields.any (fun f => !(f.errors.getD []).isEmpty)

/-- Embeds `Validator.prototype.isIncomplete`: some `[required]` input has
an empty (trimmed) value. -/
def isIncomplete (s : VState) : Bool :=
  (s.fields.filter (fun f => f.required)).any
    (fun f => incompleteVal (getValueF s.fields f))

/-- Embeds `Validator.prototype.toggleSubmit`: when `options.disable` is
set, the submit controls get the `disabled` class iff the form is
incomplete or has errors. -/
def toggleSubmit (s : VState) : VState :=
  if !s.options.disable then s
  else { s with btnDisabled := isIncomplete s || hasErrors s }

/-! ## Built-in validators (`Validator.VALIDATORS`) -/

/-- `Validator.DEFAULTS.errors.match` (the built-in `match` validator
reads the static default, not the instance options). -/
def defaultMatchMsg : String := "Does not match"

/-- `Validator.DEFAULTS.errors.minlength`. -/
def defaultMinlengthMsg : String := "Not long enough"

/-- The `native` built-in: when the element's constraint validation state
is invalid, return `validationMessage || "error!"`. -/
def nativeValidator : ValidatorFn := fun _ f =>
  .res (if !f.validity.valid then
          some (if f.validationMessage.isEmpty then "error!" else f.validationMessage)
        else none)

/-- The `match` built-in: `$el.val() !== $(target).val()` (a missing
target yields `undefined`, which never equals a string). -/
def matchValidator : ValidatorFn := fun fs f =>
  .res (if (f.dataMatch.bind (findName fs)).map Field.value = some f.value
        then none else some defaultMatchMsg)

/-- The `minlength` built-in: `$el.val().length < $el.data('minlength')`
(comparison with an absent threshold is false). -/
def minlengthValidator : ValidatorFn := fun _ f =>
  .res (if f.value.length < f.dataMinlength.getD 0
        then some defaultMinlengthMsg else none)

/-- `Validator.VALIDATORS`, in object-key order. -/
def VALIDATORS : List (String × ValidatorFn) :=
  [("native", nativeValidator), ("match", matchValidator), ("minlength", minlengthValidator)]

/-- `$.extend({}, base, custom)`: custom entries override same-named base
entries in place, remaining custom entries are appended. -/
def extendObj (base custom : List (String × ValidatorFn)) : List (String × ValidatorFn) :=
  base.map (fun kv =>
    match custom.find? (fun c => c.1 == kv.1) with
    | some c => c
    | none => kv)
  ++ custom.filter (fun c => !(base.any (fun b => b.1 == c.1)))

/-- The instance validator set built in the constructor:
`$.extend({}, Validator.VALIDATORS, options.custom)`. -/
def validatorsOf (s : VState) : List (String × ValidatorFn) :=
  extendObj VALIDATORS s.options.custom

/-! ## Error-message resolution and the validator loop -/

/-- Truthiness-aware `a || b` on optional strings (an empty string is
falsy and falls through). -/
def jsOrS : Option String → Option String → Option String
  | some a, b => if a.isEmpty then b else some a
  | none, b => b

/-- Truthiness of `$el.data(key)` for each validator configuration key
(jQuery converts `data-minlength="0"` to the falsy number 0). -/
def declares (f : Field) (key : String) : Bool :=
  if key == "match" then
    (match f.dataMatch with | some t => !t.isEmpty | none => false)
  else if key == "minlength" then
    (match f.dataMinlength with | some n => n != 0 | none => false)
  else if key == "remote" then
    (match f.dataRemote with | some r => !r.isEmpty | none => false)
  else f.dataCustom.contains key

/-- `getValidatorSpecificError` in `runValidators`:
`$el.data(key + '-error')`. -/
def getValidatorSpecificError (f : Field) (key : String) : Option String :=
  (f.dataKeyError.find? (fun kv => kv.1 == key ++ "-error")).map (fun kv => kv.2)

/-- `getValidityStateError` in `runValidators`: the first matching
validity flag selects the corresponding `data-*-error` attribute. -/
def getValidityStateError (f : Field) : Option String :=
  if f.validity.typeMismatch then f.dataTypeError
  else if f.validity.patternMismatch then f.dataPatternError
  else if f.validity.stepMismatch then f.dataStepError
  else if f.validity.rangeOverflow then f.dataMaxError
  else if f.validity.rangeUnderflow then f.dataMinError
  else if f.validity.valueMissing then f.dataRequiredError
  else none

/-- `getErrorMessage` in `runValidators`: validator-specific attribute,
else validity-state attribute, else the generic `data-error`. -/
def getErrorMessage (f : Field) (key : String) : Option String :=
  jsOrS (getValidatorSpecificError f key) (jsOrS (getValidityStateError f) f.dataError)

/-- The applicability guard of the `$.each` loop in `runValidators`:
`(getValue($el) || $el.attr('required')) && ($el.data(key) || key == 'native')`. -/
def guardB (fs : List Field) (f : Field) (key : String) : Bool :=
  (jsTruthy (getValueF fs f) || f.required) && (declares f key || key == "native")

/-- The `$.each(this.validators, ...)` loop of `runValidators`: run each
applicable validator, resolve its message through `getErrorMessage`, and
accumulate distinct messages in registration order.  An exception thrown
by a predicate propagates (there is no catch in the source), aborting the
loop. -/
def collectGo (fs : List Field) (f : Field) :
    List (String × ValidatorFn) → List String → Except Unit (List String)
  | [], errs => .ok errs
  | (key, v) :: rest, errs =>
    if guardB fs f key then
      match v fs f with
      | .exn => .error ()
      | .res none => collectGo fs f rest errs
      | .res (some e) =>
        if e.isEmpty then collectGo fs f rest errs
        else
          let msg := (jsOrS (getErrorMessage f key) (some e)).getD e
          collectGo fs f rest (if errs.contains msg then errs else errs ++ [msg])
    else collectGo fs f rest errs

/-- The synchronous error computation of `runValidators`. -/
def collectErrors (fs : List Field) (f : Field)
    (vs : List (String × ValidatorFn)) : Except Unit (List String) :=
  collectGo fs f vs []

/-! ## Error display -/

/-- Escaping performed by the jQuery `text` setter used when
`options.html` is off. -/
def escapeHtml (s : String) : String :=
  String.join (s.toList.map (fun c =>
    if c = '&' then "&amp;"
    else if c = '<' then "&lt;"
    else if c = '>' then "&gt;"
    else String.singleton c))

/-- The `<ul class="list-unstyled">` of `<li>` messages built by
`showErrors`. -/
def renderErrors (html : Bool) (errs : List String) : String :=
  "<ul class=\"list-unstyled\">"
  ++ String.join (errs.map (fun e => "<li>" ++ (if html then e else escapeHtml e) ++ "</li>"))
  ++ "</ul>"

/-- Per-group effect of `Validator.prototype.showErrors`: save the
original help-block content on first use, render the list, add
`has-error has-danger`, and when the group has feedback switch the icon
to the error icon and drop `has-success`. -/
def showErrsF (html : Bool) (errs : List String) (f : Field) : Field :=
  { f with
    blockOrig := some (f.blockOrig.getD f.blockHtml)
    blockHtml := renderErrors html errs
    groupError := true
    groupSuccess := if f.hasFeedback then false else f.groupSuccess
    feedback := if f.hasFeedback then some Feedback.error else f.feedback }

/-- Embeds `Validator.prototype.showErrors`: reads the stored error list
from the (first element of the) set and, when non-empty, updates every
group in the set. -/
def showErrors (s : VState) (tgs : List Nat) : VState :=
  match tgs.head? with
  | none => s
  | some t0 =>
    match s.fields[t0]? with
    | none => s
    | some f0 =>
      let errs := f0.errors.getD []
      if errs.isEmpty then s
      else { s with fields := applyAt tgs (showErrsF s.options.html errs) s.fields }

/-- Per-group effect of `Validator.prototype.clearErrors`: restore the
saved help-block content, drop all group markings, and when the group has
feedback and the field has a truthy value mark it succeeded. -/
def clearErrsF (gv : Bool) (f : Field) : Field :=
  let f1 := { f with
    blockHtml := f.blockOrig.getD f.blockHtml
    groupError := false
    groupSuccess := false }
  if f1.hasFeedback then
    let f2 := { f1 with feedback := none }
    if gv then { f2 with feedback := some Feedback.success, groupSuccess := true } else f2
  else f1

/-- Embeds `Validator.prototype.clearErrors` over a jQuery set (the
`getValue($el)` in the success chain is evaluated once, on the set). -/
def clearErrors (s : VState) (tgs : List Nat) : VState :=
  match tgs.head? with
  | none => s
  | some t0 =>
    match s.fields[t0]? with
    | none => s
    | some f0 =>
      let gv := jsTruthy (getValueF s.fields f0)
      { s with fields := applyAt tgs (clearErrsF gv) s.fields }

/-! ## Debounce (`defer`) and timers -/

/-- The jQuery set a timer callback was bound to. -/
def payloadTargets : TimerPayload → List Nat
  | .showErrs tgs => tgs
  | .remoteGet tgs _ => tgs

/-- Run a fired timer callback: deferred `showErrors`, or the remote
`$.get` (which itself does not change engine state; its response is the
separate `Op.remote` event). -/
def runPayload (s : VState) : TimerPayload → VState
  | .showErrs tgs => showErrors s tgs
  | .remoteGet _ _ => s

/-- `window.clearTimeout(h)`: kill the live timer identified by the
stored handle (the data slot itself is untouched). -/
def clearTimeoutJS (s : VState) (h : Option Nat) : VState :=
  match h with
  | none => s
  | some hh =>
    { s with fields := s.fields.map (fun f =>
        if f.timeoutData = some hh then { f with timerPayload := none } else f) }

/-- Embeds `Validator.prototype.defer`: with a zero `delay` the callback
runs synchronously and no timer is touched; otherwise the timer stored on
the (first element of the) set is cleared and a fresh timer is stored on
every element. -/
def defer (s : VState) (pl : TimerPayload) : VState :=
  if s.options.delay = 0 then runPayload s pl
  else
    let tgs := payloadTargets pl
    let h0 := tgs.head?.bind (fun t => (s.fields[t]?).bind (fun f => f.timeoutData))
    let s1 := clearTimeoutJS s h0
    let h := s1.fresh
    { s1 with
      fields := applyAt tgs
        (fun f => { f with timerPayload := some pl, timeoutData := some h }) s1.fields
      fresh := h + 1 }

/-! ## `runValidators`, `validateInput` and friends -/

/-- How a `runValidators` promise came back: resolved synchronously with
the error list, left pending on a scheduled remote check, or aborted by
an uncaught validator exception. -/
inductive RunOut where
  | resolved (errors : List String)
  | pendingRemote (tok : Nat)
  | threw

/-- The reject step at the top of `runValidators`
(`$el.data('bs.validator.deferred') && $el.data('bs.validator.deferred').reject()`):
the deferred currently referenced by the (first element of the) set's
slot, if any, is rejected.  A deferred no longer referenced by any slot
(for example after `reset()` removed the slot) is NOT rejected here. -/
def rejectStored (s : VState) (e : Nat) : List Nat :=
  match (s.fields[e]?).bind Field.deferredTok with
  | some t => t :: s.rejected
  | none => s.rejected

/-- Embeds `Validator.prototype.runValidators` on the element set `tgs`
whose first element is `e`: reject the deferred referenced by the stored
slot and replace the slot with a fresh deferred, run the validator loop,
and either schedule the remote check through `defer` or resolve
synchronously. -/
def runValidators (s : VState) (e : Nat) (tgs : List Nat) : VState × RunOut :=
  let tok := s.fresh
  let s1 : VState :=
    { s with
      fields := applyAt tgs (fun f => { f with deferredTok := some tok }) s.fields
      rejected := rejectStored s e
      fresh := s.fresh + 1 }
  match s1.fields[e]? with
  | none => (s1, .resolved [])
  | some fld =>
    match collectErrors s1.fields fld (validatorsOf s1) with
    | .error _ => (s1, .threw)
    | .ok errors =>
      if errors.isEmpty && jsTruthy (getValueF s1.fields fld) && declares fld "remote" then
        (defer s1 (.remoteGet tgs tok), .pendingRemote tok)
      else (s1, .resolved errors)

/-- `errors.toString()` on a JS array. -/
def arrToString (errs : List String) : String :=
  String.intercalate "," errs

/-- The notifications the engine triggers on its form element. -/
inductive Evt where
  | validate (i : Nat)
  | invalid (i : Nat) (errors : List String)
  | valid (i : Nat) (prev : Option (List String))
  | validated (i : Nat)
deriving DecidableEq

/-- The `done` continuation of `validateInput`: store the error list on
the set, show (possibly deferred) or clear the display, fire
`invalid`/`valid` on an outcome change, recompute submit gating, and fire
`validated`. -/
def donePart (s : VState) (tgs : List Nat) (errors : List String)
    (deferErrors : Bool) (prevErrors : Option (List String)) : VState × List Evt :=
  let t0 := tgs.head?.getD 0
  let s1 := { s with fields := applyAt tgs (fun f => { f with errors := some errors }) s.fields }
  let s2 :=
    if !errors.isEmpty then
      if deferErrors then defer s1 (.showErrs tgs) else showErrors s1 tgs
    else clearErrors s1 tgs
  let evs :=
    if (match prevErrors with
        | none => true
        | some p => arrToString errors ≠ arrToString p) then
      [if !errors.isEmpty then Evt.invalid t0 errors else Evt.valid t0 prevErrors]
    else []
  (toggleSubmit s2, evs ++ [Evt.validated t0])

/-- Outcome of one `validateInput` call: the state it leaves behind, the
notifications it fired, whether a validator exception escaped, and
whether the pass is still pending on a remote check. -/
structure PassOut where
  state : VState
  events : List Evt
  threw : Bool
  pending : Bool

/-- Embeds `Validator.prototype.validateInput` on field `i`.  `cancel`
models a subscriber calling `preventDefault()` on the cancelable
`validate.bs.validator` notification. -/
def validateInput (s : VState) (i : Nat) (deferErrors cancel : Bool) : PassOut :=
  match s.fields[i]? with
  | none => ⟨s, [], false, false⟩
  | some fld =>
    let prevErrors := fld.errors
    let tgs := targetsFor s i
    let e := tgs.head?.getD i
    let evs := [Evt.validate e]
    if cancel then ⟨s, evs, false, false⟩
    else
      match runValidators s e tgs with
      | (s1, .threw) => ⟨s1, evs, true, false⟩
      | (s1, .pendingRemote tok) =>
        ⟨{ s1 with dones := ⟨tok, e, tgs, deferErrors, prevErrors⟩ :: s1.dones },
         evs, false, true⟩
      | (s1, .resolved errors) =>
        let r := donePart s1 tgs errors deferErrors prevErrors
        ⟨r.1, evs ++ r.2, false, false⟩

/-- The remote check of deferred `tok` coming back (`.fail` pushes a
message, `.always` resolves the captured deferred).  Resolving a
rejected deferred is a no-op, so a check whose deferred was rejected
(superseded by a later `runValidators` while still referenced by the
slot) is discarded; otherwise the attached `done` callback fires once.
Note the guard really is the deferred's own rejected/settled state, not
the field's current slot: a deferred orphaned by `removeData` (as in
`reset()`) is still live. -/
def applyRemoteResult (s : VState) (tok : Nat) (failed : Bool) (failMsg : String) : VState :=
  if s.rejected.contains tok then s
  else
    match s.dones.find? (fun d => d.tok == tok) with
    | none => s
    | some info =>
      match s.fields[info.fieldIdx]? with
      | none => s
      | some fld =>
        let errors :=
          if failed then [(jsOrS (getErrorMessage fld "remote") (some failMsg)).getD failMsg]
          else []
        let r := donePart s info.targets errors info.deferErrors info.prevErrors
        { r.1 with dones := r.1.dones.filter (fun d => !(d.tok == tok)) }

/-- Embeds `Validator.prototype.onInput` for an `input`/`change`/
`focusout` event on field `i`: errors are deferred unless the event is a
focusout, and the outer `done` recomputes submit gating once the pass
resolves. -/
def onInput (s : VState) (i : Nat) (focusout cancel : Bool) : VState :=
  let o := validateInput s i (!focusout) cancel
  if cancel || o.threw || o.pending then o.state else toggleSubmit o.state

/-- The synchronous pass over the inputs performed by
`Validator.prototype.validate`: each input in turn, aborting with the
escaping exception as soon as a validator throws (there is no catch
anywhere on this path, so the remaining inputs are never validated).
The boolean records whether an exception escaped. -/
def validateAllGo (s : VState) : List Nat → VState × Bool
  | [] => (s, false)
  | i :: rest =>
    let o := validateInput s i false false
    if o.threw then (o.state, true) else validateAllGo o.state rest

/-- Embeds `Validator.prototype.validate`: a non-deferred pass over every
input; a validator exception escapes, aborting the remaining passes and
skipping the submit-gating recomputation; otherwise submit gating is
recomputed. -/
def validateAll (s : VState) : VState × Bool :=
  match validateAllGo s (List.range s.fields.length) with
  | (s1, true) => (s1, true)
  | (s1, false) => (toggleSubmit s1, false)

/-- Embeds `Validator.prototype.onSubmit`: trigger the full-form
validate; when a validator exception escapes the full-form validate it
also escapes `onSubmit`, so `e.preventDefault()` never runs; otherwise
the default action is prevented iff the form is incomplete or has errors
at that (synchronous) moment.  Components: the resulting state, whether
the default action was prevented, whether an exception escaped. -/
def onSubmit (s : VState) : VState × Bool × Bool :=
  match validateAll s with
  | (s1, true) => (s1, false, true)
  | (s1, false) => (s1, isIncomplete s1 || hasErrors s1, false)

/-- Embeds `Validator.prototype.reset`: strip feedback icons, remove the
stored error lists and deferreds, cancel every live debounce timer (the
stored handle survives because `clearTimeout` returns `undefined`,
short-circuiting the `removeData`), restore each help-block to its saved
original content, drop all group markings, and re-enable the submit
controls. -/
def resetState (s : VState) : VState :=
  { s with
    fields := s.fields.map (fun f =>
      { f with
        feedback := none
        errors := none
        deferredTok := none
        timerPayload := none
        blockHtml := f.blockOrig.getD f.blockHtml
        blockOrig := none
        groupError := false
        groupSuccess := false })
    btnDisabled := false }

/-- The cross-field handler registered in the constructor for a field
declaring `data-match`: on `input` on the match target, re-trigger the
dependent field's validation only when the dependent field currently has
a truthy value (`getValue($this) && $this.trigger('input.bs.validator')`). -/
def matchTargetInput (s : VState) (dep : Nat) : VState :=
  match s.fields[dep]? with
  | none => s
  | some d =>
    if jsTruthy (getValueF s.fields d) then onInput s dep false false else s

/-- A live debounce timer on field `i` firing: the one shared timer of its
set is cleared, then its callback runs. -/
def fireTimerOp (s : VState) (i : Nat) : VState :=
  match s.fields[i]? with
  | none => s
  | some f =>
    match f.timerPayload, f.timeoutData with
    | some pl, some hh =>
      let s1 := { s with fields := s.fields.map (fun g =>
        if g.timeoutData = some hh then { g with timerPayload := none } else g) }
      runPayload s1 pl
    | _, _ => s

/-- The external events that can reach a constructed engine: field input
(with the focusout flag and possible cancellation of the `validate`
notification), form submission, form reset, a debounce timer firing, a
remote check responding, an `input` on a `data-match` target, and the
user editing a field's value. -/
inductive Op where
  | input (i : Nat) (focusout cancel : Bool)
  | submit
  | formReset
  | fireTimer (i : Nat)
  | remote (tok : Nat) (failed : Bool) (msg : String)
  | targetInput (dep : Nat)
  | setValue (i : Nat) (v : String) (c : Bool)

/-- One step of the engine under an external event. -/
def step (s : VState) : Op → VState
  | .input i fo c => onInput s i fo c
  | .submit => (onSubmit s).1
  | .formReset => resetState s
  | .fireTimer i => fireTimerOp s i
  | .remote tok failed msg => applyRemoteResult s tok failed msg
  | .targetInput dep => matchTargetInput s dep
  | .setValue i v c =>
    { s with fields := applyAt [i] (fun f => { f with value := v, checked := c }) s.fields }

/-- Run a sequence of external events. -/
def run (s : VState) (ops : List Op) : VState :=
  ops.foldl step s

/-! ## Concrete fixtures -/

/-- A validity state with every constraint satisfied. -/
def okValidity : ValidityState :=
  ⟨true, false, false, false, false, false, false⟩

/-- A plain text field with no validator configuration and no transient
state. -/
def baseField : Field :=
  { name := "f", kind := .text, value := "", checked := false, required := false
    validity := okValidity, validationMessage := ""
    dataMatch := none, dataMinlength := none, dataRemote := none, dataCustom := []
    dataKeyError := [], dataTypeError := none, dataPatternError := none
    dataStepError := none, dataMaxError := none, dataMinError := none
    dataRequiredError := none, dataError := none
    errors := none, deferredTok := none, timerPayload := none, timeoutData := none
    blockHtml := "orig", blockOrig := none
    groupError := false, groupSuccess := false, hasFeedback := false, feedback := none }

/-- `Validator.DEFAULTS` restricted to the modelled options. -/
def baseOptions : Options :=
  { delay := 500, html := false, disable := true, focus := true, custom := [] }

/-- An engine as the constructor leaves it over the given fields. -/
def mkState (fs : List Field) (custom : List (String × ValidatorFn)) : VState :=
  { options := { baseOptions with custom := custom }
    fields := fs, dones := [], rejected := [], btnDisabled := false, fresh := 0 }

/-! ## Basic lemmas about the list combinators -/

theorem length_applyAtGo (tgs : List Nat) (g : Field → Field) :
    ∀ (n : Nat) (fs : List Field), (applyAtGo tgs g n fs).length = fs.length := by
  intro n fs
  induction fs generalizing n with
  | nil => rfl
  | cons f fs ih => simp [applyAtGo, ih]

theorem length_applyAt (tgs : List Nat) (g : Field → Field) (fs : List Field) :
    (applyAt tgs g fs).length = fs.length :=
  length_applyAtGo tgs g 0 fs

theorem getElem?_applyAtGo (tgs : List Nat) (g : Field → Field) :
    ∀ (n : Nat) (fs : List Field) (j : Nat),
      (applyAtGo tgs g n fs)[j]? =
        (fs[j]?).map (fun f => if tgs.contains (n + j) then g f else f) := by
  intro n fs
  induction fs generalizing n with
  | nil => intro j; rfl
  | cons f fs ih =>
    intro j
    cases j with
    | zero => simp [applyAtGo]
    | succ k =>
      have h := ih (n + 1) k
      simp only [applyAtGo, List.getElem?_cons_succ, h]
      have : n + 1 + k = n + (k + 1) := by omega
      rw [this]

theorem getElem?_applyAt (tgs : List Nat) (g : Field → Field) (fs : List Field) (j : Nat) :
    (applyAt tgs g fs)[j]? =
      (fs[j]?).map (fun f => if tgs.contains j then g f else f) := by
  have h := getElem?_applyAtGo tgs g 0 fs j
  simpa using h

theorem any_applyAtGo (tgs : List Nat) (g : Field → Field) (p : Field → Bool)
    (hp : ∀ f, p (g f) = p f) :
    ∀ (n : Nat) (fs : List Field), (applyAtGo tgs g n fs).any p = fs.any p := by
  intro n fs
  induction fs generalizing n with
  | nil => rfl
  | cons f fs ih =>
    simp only [applyAtGo, List.any_cons, ih]
    by_cases h : n ∈ tgs
    · simp [h, hp]
    · simp [h]

theorem any_applyAt (tgs : List Nat) (g : Field → Field) (p : Field → Bool)
    (hp : ∀ f, p (g f) = p f) (fs : List Field) :
    (applyAt tgs g fs).any p = fs.any p :=
  any_applyAtGo tgs g p hp 0 fs

theorem mem_nameTargets (fs : List Field) (nm : String) (j : Nat) :
    j ∈ nameTargets fs nm ↔ (fs[j]?).map Field.name = some nm := by
  unfold nameTargets
  rw [List.mem_filter, List.mem_range]
  constructor
  · rintro ⟨-, h⟩
    simpa using h
  · intro h
    have hj : j < fs.length := by
      cases hq : fs[j]? with
      | none => rw [hq] at h; simp at h
      | some f => exact (List.getElem?_eq_some.mp hq).1
    exact ⟨hj, by simpa using h⟩

theorem mem_targetsFor_lt (s : VState) (i j : Nat) (hi : i < s.fields.length)
    (hj : j ∈ targetsFor s i) : j < s.fields.length := by
  unfold targetsFor at hj
  rw [List.getElem?_eq_getElem hi] at hj
  by_cases hk : s.fields[i].kind = FieldKind.radio
  · simp only [hk, if_pos rfl] at hj
    rcases (mem_nameTargets _ _ _).mp hj with h
    cases hq : s.fields[j]? with
    | none => rw [hq] at h; simp at h
    | some f => exact (List.getElem?_eq_some.mp hq).1
  · simp only [if_neg hk] at hj
    simp at hj
    omega

/-! ## Projection stability: which per-field slots each operation leaves alone -/

section Proj

variable {α : Type} (π : Field → α)

theorem proj_applyAt (g : Field → Field) (hg : ∀ f, π (g f) = π f)
    (tgs : List Nat) (fs : List Field) (j : Nat) :
    ((applyAt tgs g fs)[j]?).map π = (fs[j]?).map π := by
  rw [getElem?_applyAt]
  cases fs[j]? with
  | none => rfl
  | some f =>
    simp only [Option.map_some']
    split <;> simp [hg]

theorem proj_mapFields (g : Field → Field) (hg : ∀ f, π (g f) = π f)
    (fs : List Field) (j : Nat) :
    ((fs.map g)[j]?).map π = (fs[j]?).map π := by
  rw [List.getElem?_map]
  cases fs[j]? with
  | none => rfl
  | some f => simp [hg]

theorem proj_showErrors (hsh : ∀ b errs f, π (showErrsF b errs f) = π f)
    (s : VState) (tgs : List Nat) (j : Nat) :
    ((showErrors s tgs).fields[j]?).map π = (s.fields[j]?).map π := by
  unfold showErrors
  cases tgs.head? with
  | none => rfl
  | some t0 =>
    dsimp only
    cases s.fields[t0]? with
    | none => rfl
    | some f0 =>
      dsimp only
      split
      · rfl
      · exact proj_applyAt π _ (hsh _ _) tgs s.fields j

theorem proj_clearErrors (hcl : ∀ gv f, π (clearErrsF gv f) = π f)
    (s : VState) (tgs : List Nat) (j : Nat) :
    ((clearErrors s tgs).fields[j]?).map π = (s.fields[j]?).map π := by
  unfold clearErrors
  cases tgs.head? with
  | none => rfl
  | some t0 =>
    dsimp only
    cases s.fields[t0]? with
    | none => rfl
    | some f0 => exact proj_applyAt π _ (hcl _) tgs s.fields j

theorem proj_clearTimeoutJS (hct : ∀ f, π { f with timerPayload := none } = π f)
    (s : VState) (h : Option Nat) (j : Nat) :
    ((clearTimeoutJS s h).fields[j]?).map π = (s.fields[j]?).map π := by
  unfold clearTimeoutJS
  cases h with
  | none => rfl
  | some hh =>
    refine proj_mapFields π _ ?_ s.fields j
    intro f
    split <;> simp [hct]

theorem proj_runPayload (hsh : ∀ b errs f, π (showErrsF b errs f) = π f)
    (s : VState) (pl : TimerPayload) (j : Nat) :
    ((runPayload s pl).fields[j]?).map π = (s.fields[j]?).map π := by
  cases pl with
  | showErrs tgs => exact proj_showErrors π hsh s tgs j
  | remoteGet tgs tok => rfl

theorem proj_defer (hsh : ∀ b errs f, π (showErrsF b errs f) = π f)
    (hct : ∀ f, π { f with timerPayload := none } = π f)
    (hst : ∀ pl h f, π { f with timerPayload := some pl, timeoutData := some h } = π f)
    (s : VState) (pl : TimerPayload) (j : Nat) :
    ((defer s pl).fields[j]?).map π = (s.fields[j]?).map π := by
  unfold defer
  split
  · exact proj_runPayload π hsh s pl j
  · dsimp only
    rw [proj_applyAt π _ (hst _ _), proj_clearTimeoutJS π hct]

theorem proj_toggleSubmit (s : VState) : (toggleSubmit s).fields = s.fields := by
  unfold toggleSubmit
  split <;> rfl

theorem proj_donePart (hsh : ∀ b errs f, π (showErrsF b errs f) = π f)
    (hcl : ∀ gv f, π (clearErrsF gv f) = π f)
    (hct : ∀ f, π { f with timerPayload := none } = π f)
    (hst : ∀ pl h f, π { f with timerPayload := some pl, timeoutData := some h } = π f)
    (herr : ∀ E f, π { f with errors := some E } = π f)
    (s : VState) (tgs : List Nat) (errors : List String) (de : Bool)
    (pe : Option (List String)) (j : Nat) :
    ((donePart s tgs errors de pe).1.fields[j]?).map π = (s.fields[j]?).map π := by
  unfold donePart
  dsimp only
  rw [proj_toggleSubmit]
  split
  · split
    · rw [proj_defer π hsh hct hst, proj_applyAt π _ (herr _)]
    · rw [proj_showErrors π hsh, proj_applyAt π _ (herr _)]
  · rw [proj_clearErrors π hcl, proj_applyAt π _ (herr _)]

end Proj

/-- `donePart` stores exactly the freshly computed error list on every
element of its target set and leaves the stored list of other fields
alone. -/
theorem errors_donePart (s : VState) (tgs : List Nat) (errors : List String)
    (de : Bool) (pe : Option (List String)) (j : Nat) :
    ((donePart s tgs errors de pe).1.fields[j]?).map Field.errors =
      (s.fields[j]?).map (fun f => if tgs.contains j then some errors else f.errors) := by
  unfold donePart
  dsimp only
  rw [proj_toggleSubmit]
  have hrest : ∀ (s2 : VState),
      s2.fields = applyAt tgs (fun f => { f with errors := some errors }) s.fields →
      ((if !errors.isEmpty then
          if de then defer s2 (.showErrs tgs) else showErrors s2 tgs
        else clearErrors s2 tgs).fields[j]?).map Field.errors =
        (s2.fields[j]?).map Field.errors := by
    intro s2 hs2
    split
    · split
      · exact proj_defer Field.errors (fun _ _ _ => rfl) (fun _ => rfl) (fun _ _ _ => rfl) s2 _ j
      · exact proj_showErrors Field.errors (fun _ _ _ => rfl) s2 tgs j
    · exact proj_clearErrors Field.errors
        (by intro gv f; unfold clearErrsF; dsimp only; split <;> (try split) <;> rfl) s2 tgs j
  rw [hrest _ rfl, getElem?_applyAt]
  cases s.fields[j]? with
  | none => rfl
  | some f =>
    simp only [Option.map_some']
    split <;> rfl

/-! ## Lemmas about the validator loop -/

/-- When no validator's applicability guard holds, the loop contributes
nothing: it returns its accumulator untouched, for any validator list. -/
theorem collectGo_no_guard (fs : List Field) (f : Field)
    (h : ∀ k, guardB fs f k = false) :
    ∀ (vs : List (String × ValidatorFn)) (errs : List String),
      collectGo fs f vs errs = .ok errs := by
  intro vs
  induction vs with
  | nil => intro errs; rfl
  | cons kv rest ih =>
    intro errs
    obtain ⟨key, v⟩ := kv
    conv_lhs => rw [collectGo]
    rw [h key]
    simp only [Bool.false_eq_true, if_false]
    exact ih errs

/-- A validator whose applicability guard fails is skipped: deleting it
from the registration list does not change the loop's outcome. -/
theorem collectGo_skip (fs : List Field) (f : Field) (k : String) (v : ValidatorFn)
    (h : guardB fs f k = false) :
    ∀ (pre post : List (String × ValidatorFn)) (errs : List String),
      collectGo fs f (pre ++ (k, v) :: post) errs = collectGo fs f (pre ++ post) errs := by
  intro pre
  induction pre with
  | nil =>
    intro post errs
    simp only [List.nil_append]
    conv_lhs => rw [collectGo]
    rw [h]
    simp only [Bool.false_eq_true, if_false]
  | cons kv rest ih =>
    intro post errs
    obtain ⟨key2, v2⟩ := kv
    simp only [List.cons_append]
    conv_lhs => rw [collectGo]
    conv_rhs => rw [collectGo]
    by_cases hg : guardB fs f key2 = true
    · simp only [hg, if_true]
      cases hv : v2 fs f with
      | exn => rfl
      | res r =>
        cases r with
        | none => exact ih post errs
        | some e =>
          by_cases he : e.isEmpty = true
          · simp only [he, if_true]
            exact ih post errs
          · simp only [he, if_false]
            exact ih post _
    · rw [Bool.not_eq_true] at hg
      simp only [hg, Bool.false_eq_true, if_false]
      exact ih post errs

/-- `getValue` is unchanged by a bulk update that does not touch any
field's name, kind, checked state or value. -/
theorem getValueF_stable (g : Field → Field)
    (hname : ∀ f, (g f).name = f.name) (hkind : ∀ f, (g f).kind = f.kind)
    (hchk : ∀ f, (g f).checked = f.checked) (hval : ∀ f, (g f).value = f.value)
    (tgs : List Nat) (fs : List Field) (f : Field) :
    getValueF (applyAt tgs g fs) (g f) = getValueF fs f := by
  unfold getValueF
  rw [hkind, hname, hval, hchk]
  cases f.kind with
  | text => rfl
  | checkbox => rfl
  | radio =>
    dsimp only
    congr 1
    exact any_applyAt tgs g
      (fun x => x.name == f.name && !(x.kind == FieldKind.text) && x.checked)
      (fun x => by simp only [hname, hkind, hchk]) fs

/-- `clearErrors` always removes the errored marking from the group. -/
theorem clearErrsF_groupError (gv : Bool) (f : Field) :
    (clearErrsF gv f).groupError = false := by
  unfold clearErrsF
  dsimp only
  split <;> (try split) <;> rfl

/-! ## Claim C8 -/

/-- C8: every per-field validation pass fires the cancelable
`validate.bs.validator` notification before anything else (it is the
first event of the pass), and a canceled pass aborts entirely: the engine
state — stored error lists, displayed errors, everything — is returned
unchanged, nothing threw and nothing is pending. -/
theorem c8_cancel_aborts (s : VState) (i : Nat) (d : Bool) (hi : i < s.fields.length) :
    (validateInput s i d true).state = s ∧
    (validateInput s i d true).threw = false ∧
    (validateInput s i d true).pending = false ∧
    (validateInput s i d true).events =
      [Evt.validate ((targetsFor s i).head?.getD i)] ∧
    ∀ c : Bool, (validateInput s i d c).events.head? =
      some (Evt.validate ((targetsFor s i).head?.getD i)) := by
  have hf := List.getElem?_eq_getElem hi
  refine ⟨?_, ?_, ?_, ?_, ?_⟩
  · simp [validateInput, hf]
  · simp [validateInput, hf]
  · simp [validateInput, hf]
  · simp [validateInput, hf]
  · intro c
    cases c with
    | true => simp [validateInput, hf]
    | false =>
      simp only [validateInput, hf]
      rcases hrv : runValidators s ((targetsFor s i).head?.getD i) (targetsFor s i)
        with ⟨s1, out⟩
      cases out <;> simp

/-- Witness for C8 at a concrete state. -/
theorem c8_witness :
    0 < (mkState [baseField] []).fields.length ∧
    (validateInput (mkState [baseField] []) 0 false true).state = mkState [baseField] [] :=
  ⟨by decide, (c8_cancel_aborts (mkState [baseField] []) 0 false (by decide)).1⟩

/-! ## Claim C10 -/

/-- C10: with a zero `delay` option, `defer` invokes its callback
synchronously and creates no timer: no field's live timer or stored
timeout handle changes. -/
theorem c10_zero_delay_defer (s : VState) (pl : TimerPayload)
    (h : s.options.delay = 0) :
    defer s pl = runPayload s pl ∧
    (∀ j : Nat, ((defer s pl).fields[j]?).map Field.timerPayload
        = (s.fields[j]?).map Field.timerPayload) ∧
    (∀ j : Nat, ((defer s pl).fields[j]?).map Field.timeoutData
        = (s.fields[j]?).map Field.timeoutData) := by
  have h1 : defer s pl = runPayload s pl := by
    unfold defer
    rw [h]
    simp
  refine ⟨h1, ?_, ?_⟩ <;> intro j <;> rw [h1]
  · exact proj_runPayload Field.timerPayload (fun _ _ _ => rfl) s pl j
  · exact proj_runPayload Field.timeoutData (fun _ _ _ => rfl) s pl j

/-- A state configured with `delay: 0`. -/
def c10exState : VState :=
  { mkState [baseField] [] with options := { baseOptions with delay := 0 } }

/-- Witness for C10: at `delay = 0` the deferred error display runs
synchronously and no timer state changes. -/
theorem c10_witness :
    c10exState.options.delay = 0 ∧
    defer c10exState (TimerPayload.showErrs [0]) =
      runPayload c10exState (TimerPayload.showErrs [0]) :=
  ⟨rfl, (c10_zero_delay_defer c10exState (TimerPayload.showErrs [0]) rfl).1⟩

/-! ## Claim C6 -/

/-- C6 (amended): when the `minlength` validator actually applies to a
field declaring threshold `n` — that is, the field has a truthy value or
is required — the pass reports the minlength error iff the value's length
is strictly below `n`; a value of length exactly `n` passes.  (The
hypotheses on the `data-*-error` slots and the validity state keep the
other validators and the message-override chain silent.) -/
theorem c6_minlength_amended (fs : List Field) (fld : Field) (n : Nat)
    (hn : fld.dataMinlength = some n) (hn0 : n ≠ 0)
    (happ : jsTruthy (getValueF fs fld) = true ∨ fld.required = true)
    (hvalid : fld.validity.valid = true)
    (hmatch : fld.dataMatch = none)
    (hke : fld.dataKeyError = []) (hde : fld.dataError = none)
    (hte : fld.dataTypeError = none) (hpe : fld.dataPatternError = none)
    (hse : fld.dataStepError = none) (hxe : fld.dataMaxError = none)
    (hme : fld.dataMinError = none) (hre : fld.dataRequiredError = none) :
    collectErrors fs fld VALIDATORS =
      .ok (if fld.value.length < n then [defaultMinlengthMsg] else []) ∧
    (fld.value.length = n → collectErrors fs fld VALIDATORS = .ok []) := by
  have happb : (jsTruthy (getValueF fs fld) || fld.required) = true := by
    rcases happ with h | h <;> simp [h]
  have hne : ("Not long enough").isEmpty = false := by decide
  have hmain : collectErrors fs fld VALIDATORS =
      .ok (if fld.value.length < n then [defaultMinlengthMsg] else []) := by
    by_cases hl : fld.value.length < n
    · simp [collectErrors, collectGo, VALIDATORS, guardB, declares, hne,
        nativeValidator, matchValidator, minlengthValidator, getErrorMessage,
        getValidatorSpecificError, getValidityStateError, jsOrS,
        defaultMinlengthMsg, hn, hn0, hvalid, hmatch, hke, hde, hte, hpe, hse,
        hxe, hme, hre, happb, hl]
    · simp [collectErrors, collectGo, VALIDATORS, guardB, declares,
        nativeValidator, matchValidator, minlengthValidator, getErrorMessage,
        getValidatorSpecificError, getValidityStateError, jsOrS,
        defaultMinlengthMsg, hn, hn0, hvalid, hmatch, hke, hde, hte, hpe, hse,
        hxe, hme, hre, happb, hl]
  refine ⟨hmain, fun hb => ?_⟩
  rw [hmain, hb]
  simp

/-- A required field declaring `data-minlength="5"` whose value has
length exactly 5 (the boundary case). -/
def c6exField : Field :=
  { baseField with value := "abcde", required := true, dataMinlength := some 5 }

/-- Witness for C6: the boundary value of length exactly `n` yields no
error. -/
theorem c6_witness :
    (jsTruthy (getValueF [c6exField] c6exField) = true ∨ c6exField.required = true) ∧
    collectErrors [c6exField] c6exField VALIDATORS = .ok [] :=
  ⟨Or.inr rfl,
   (c6_minlength_amended [c6exField] c6exField 5 rfl (by decide) (Or.inr rfl) rfl rfl
      rfl rfl rfl rfl rfl rfl rfl rfl).2 rfl⟩

/-- An empty, optional field declaring `data-minlength="5"`. -/
def c6ceField : Field := { baseField with dataMinlength := some 5 }

/-- Counterexample to C6 as stated: for this field the value's length (0)
is strictly below the declared threshold 5, yet the pass reports no
error at all — the applicability gate skips every validator because the
value is empty and the field is not required. -/
theorem c6_counterexample :
    c6ceField.value.length < 5 ∧
    c6ceField.required = false ∧
    collectErrors [c6ceField] c6ceField VALIDATORS = .ok [] := by
  refine ⟨by decide, rfl, ?_⟩
  rfl

/-! ## Claim C4 -/

/-- C4 (amended): (1) when the `match` validator actually applies to a
field declaring a match target — the field has a truthy value or is
required — the pass reports the match error iff the field's value is not
strictly equal to the target's value at evaluation time; (2) an `input`
event on the match target re-triggers validation of the dependent field
exactly when the dependent field currently has a truthy value, and does
nothing otherwise. -/
theorem c4_match_amended :
    (∀ (fs : List Field) (fld tgtFld : Field) (tgt : String),
      fld.dataMatch = some tgt → tgt.isEmpty = false →
      (jsTruthy (getValueF fs fld) = true ∨ fld.required = true) →
      fld.validity.valid = true →
      fld.dataMinlength = none →
      fld.dataKeyError = [] → fld.dataError = none →
      fld.dataTypeError = none → fld.dataPatternError = none →
      fld.dataStepError = none → fld.dataMaxError = none →
      fld.dataMinError = none → fld.dataRequiredError = none →
      findName fs tgt = some tgtFld →
      collectErrors fs fld VALIDATORS =
        .ok (if tgtFld.value = fld.value then [] else [defaultMatchMsg])) ∧
    (∀ (s : VState) (dep : Nat) (depFld : Field),
      s.fields[dep]? = some depFld →
      (jsTruthy (getValueF s.fields depFld) = false → matchTargetInput s dep = s) ∧
      (jsTruthy (getValueF s.fields depFld) = true →
        matchTargetInput s dep = onInput s dep false false)) := by
  constructor
  · intro fs fld tgtFld tgt hm htne happ hvalid hminl hke hde hte hpe hse hxe hme hre hfind
    have happb : (jsTruthy (getValueF fs fld) || fld.required) = true := by
      rcases happ with h | h <;> simp [h]
    have hne : ("Does not match").isEmpty = false := by decide
    by_cases hv : tgtFld.value = fld.value
    · simp [collectErrors, collectGo, VALIDATORS, guardB, declares, hne,
        nativeValidator, matchValidator, minlengthValidator, getErrorMessage,
        getValidatorSpecificError, getValidityStateError, jsOrS, defaultMatchMsg,
        hm, htne, hvalid, hminl, hke, hde, hte, hpe, hse, hxe, hme, hre, happb,
        hfind, hv]
    · simp [collectErrors, collectGo, VALIDATORS, guardB, declares, hne,
        nativeValidator, matchValidator, minlengthValidator, getErrorMessage,
        getValidatorSpecificError, getValidityStateError, jsOrS, defaultMatchMsg,
        hm, htne, hvalid, hminl, hke, hde, hte, hpe, hse, hxe, hme, hre, happb,
        hfind, hv]
  · intro s dep depFld hdep
    constructor <;> intro hv <;> unfold matchTargetInput <;> rw [hdep] <;> simp [hv]

/-- The match target of the witness scenario (a password field). -/
def c4exT : Field := { baseField with name := "pw", value := "x" }

/-- The dependent field of the witness scenario (a confirm field whose
value differs from the target's). -/
def c4exA : Field := { baseField with name := "cf", value := "y", dataMatch := some "pw" }

/-- Witness for C4: the confirm field with a differing value gets exactly
the match error, and an input on the target re-triggers the dependent
field's pass (its value is truthy). -/
theorem c4_witness :
    c4exA.dataMatch = some "pw" ∧
    findName [c4exT, c4exA] "pw" = some c4exT ∧
    collectErrors [c4exT, c4exA] c4exA VALIDATORS = .ok [defaultMatchMsg] ∧
    matchTargetInput (mkState [c4exT, c4exA] []) 1 =
      onInput (mkState [c4exT, c4exA] []) 1 false false := by
  have h1 := (c4_match_amended.1 [c4exT, c4exA] c4exA c4exT "pw" rfl (by decide)
    (Or.inl (by decide)) rfl rfl rfl rfl rfl rfl rfl rfl rfl rfl rfl)
  have h2 := ((c4_match_amended.2 (mkState [c4exT, c4exA] []) 1 c4exA rfl).2 (by decide))
  refine ⟨rfl, rfl, ?_, h2⟩
  rw [h1, if_neg (by decide)]

/-- The match target of the counterexample (value "x"). -/
def c4ceT : Field := { baseField with name := "t", value := "x" }

/-- The dependent field of the counterexample: empty, optional, declaring
`data-match` at the target, with a stale stored error list. -/
def c4ceA : Field :=
  { baseField with name := "a", dataMatch := some "t", errors := some ["stale"] }

/-- The engine of the counterexample. -/
def c4ceState : VState := mkState [c4ceT, c4ceA] []

/-- Counterexample to C4 as stated.  First conjunct block: the dependent
field's value "" differs from the target's value "x", yet the pass
reports no match error (the applicability gate skips the validator for an
empty optional field).  Second block: an input on the target does NOT
re-trigger the dependent field's validation — the handler is guarded by
the dependent field's truthiness — so its stale stored error list
survives, although a pass would have replaced it with the empty list. -/
theorem c4_counterexample :
    c4ceA.value ≠ c4ceT.value ∧
    collectErrors [c4ceT, c4ceA] c4ceA VALIDATORS = .ok [] ∧
    matchTargetInput c4ceState 1 = c4ceState ∧
    ((c4ceState.fields[1]?).map Field.errors = some (some ["stale"])) ∧
    (((validateInput c4ceState 1 true false).state.fields[1]?).map Field.errors
      = some (some [])) := by
  refine ⟨by decide, rfl, rfl, rfl, rfl⟩

/-! ## Claim C5 -/

/-- On a field whose set-level value is falsy and which is not required,
`runValidators` resolves synchronously with the empty error list: every
validator is gated off and no remote check is scheduled. -/
theorem runValidators_empty_optional (s : VState) (e : Nat) (tgs : List Nat) (efld : Field)
    (hef : s.fields[e]? = some efld) (hcont : tgs.contains e = true)
    (hval : jsTruthy (getValueF s.fields efld) = false) (hreq : efld.required = false) :
    runValidators s e tgs =
      ({ s with
          fields := applyAt tgs (fun f => { f with deferredTok := some s.fresh }) s.fields
          rejected := rejectStored s e
          fresh := s.fresh + 1 }, .resolved []) := by
  have hmemE : e ∈ tgs := List.elem_iff.mp hcont
  have he1 : (applyAt tgs (fun f => { f with deferredTok := some s.fresh }) s.fields)[e]?
      = some { efld with deferredTok := some s.fresh } := by
    rw [getElem?_applyAt, hef]
    simp [hcont, hmemE]
  have hstab : getValueF
      (applyAt tgs (fun f => { f with deferredTok := some s.fresh }) s.fields)
      { efld with deferredTok := some s.fresh } = getValueF s.fields efld :=
    getValueF_stable (fun f => { f with deferredTok := some s.fresh })
      (fun _ => rfl) (fun _ => rfl) (fun _ => rfl) (fun _ => rfl) tgs s.fields efld
  have hguards : ∀ k, guardB
      (applyAt tgs (fun f => { f with deferredTok := some s.fresh }) s.fields)
      { efld with deferredTok := some s.fresh } k = false := by
    intro k
    unfold guardB
    rw [hstab, hval]
    have hr : ({ efld with deferredTok := some s.fresh } : Field).required = false := hreq
    rw [hr]
    rfl
  have hcoll : collectErrors
      (applyAt tgs (fun f => { f with deferredTok := some s.fresh }) s.fields)
      { efld with deferredTok := some s.fresh }
      (validatorsOf { s with
        fields := applyAt tgs (fun f => { f with deferredTok := some s.fresh }) s.fields
        rejected := rejectStored s e
        fresh := s.fresh + 1 }) = .ok [] :=
    collectGo_no_guard _ _ hguards _ []
  unfold runValidators
  simp only [he1, hcoll, hstab, hval]
  rfl

/-- `donePart` invoked with the empty error list stores the empty list on
every target and clears the errored marking of every target group. -/
theorem donePart_nil_effects (s : VState) (tgs : List Nat) (d : Bool)
    (p : Option (List String)) (e : Nat) (efld2 : Field)
    (he : tgs.head? = some e) (hef : s.fields[e]? = some efld2)
    (j : Nat) (f_j : Field) (hj : tgs.contains j = true) (hjf : s.fields[j]? = some f_j) :
    ((donePart s tgs [] d p).1.fields[j]?).map Field.errors = some (some []) ∧
    ((donePart s tgs [] d p).1.fields[j]?).map Field.groupError = some false := by
  have herr := errors_donePart s tgs [] d p j
  have hjmem : j ∈ tgs := List.elem_iff.mp hj
  constructor
  · rw [herr, hjf]
    simp [hj, hjmem]
  · unfold donePart
    dsimp only
    rw [proj_toggleSubmit]
    have hclear : ((clearErrors
        { s with fields := applyAt tgs (fun f => { f with errors := some [] }) s.fields }
        tgs).fields[j]?).map Field.groupError = some false := by
      unfold clearErrors
      rw [he]
      dsimp only
      have he2 : (applyAt tgs (fun f => { f with errors := some [] }) s.fields)[e]?
          = some { efld2 with errors := some ([] : List String) } := by
        rw [getElem?_applyAt, hef]
        have hme : e ∈ tgs := List.mem_of_mem_head? (by simp [he])
        simp [hme]
      rw [he2]
      dsimp only
      rw [getElem?_applyAt, getElem?_applyAt, hjf]
      simp [hj, hjmem, clearErrsF_groupError]
    exact hclear

/-- C5: a validation pass over a field whose value is empty (falsy) and
which is not required runs no validator, stores the empty error list and
leaves the field unmarked (no `has-error` on any target group); and in
general a validator whose applicability guard fails — the field's value
is falsy and it is not required, or the field does not declare the
validator's configuration key and the key is not `native` — is skipped:
deleting it from the registration list changes nothing. -/
theorem c5_empty_optional_skips (s : VState) (i e : Nat) (fld efld : Field) (d : Bool)
    (hf : s.fields[i]? = some fld)
    (he : (targetsFor s i).head? = some e)
    (hef : s.fields[e]? = some efld)
    (hval : jsTruthy (getValueF s.fields efld) = false)
    (hreq : efld.required = false) :
    (validateInput s i d false).threw = false ∧
    (validateInput s i d false).pending = false ∧
    (∀ j, (targetsFor s i).contains j = true →
      (((validateInput s i d false).state.fields[j]?).map Field.errors = some (some []) ∧
       ((validateInput s i d false).state.fields[j]?).map Field.groupError = some false)) ∧
    (∀ (fs2 : List Field) (f2 : Field) (k : String) (v : ValidatorFn),
      guardB fs2 f2 k = false →
      ∀ (pre post : List (String × ValidatorFn)) (errs : List String),
        collectGo fs2 f2 (pre ++ (k, v) :: post) errs = collectGo fs2 f2 (pre ++ post) errs) := by
  have hi : i < s.fields.length := (List.getElem?_eq_some.mp hf).1
  have hmem : e ∈ targetsFor s i := List.mem_of_mem_head? (by simp [he])
  have hcont : (targetsFor s i).contains e = true := List.elem_iff.mpr hmem
  have hrun := runValidators_empty_optional s e (targetsFor s i) efld hef hcont hval hreq
  have hvi : validateInput s i d false =
      ⟨(donePart
          { s with
            fields := applyAt (targetsFor s i)
              (fun f => { f with deferredTok := some s.fresh }) s.fields
            rejected := rejectStored s ((targetsFor s i).head?.getD i)
            fresh := s.fresh + 1 } (targetsFor s i) [] d fld.errors).1,
        [Evt.validate e] ++ (donePart
          { s with
            fields := applyAt (targetsFor s i)
              (fun f => { f with deferredTok := some s.fresh }) s.fields
            rejected := rejectStored s ((targetsFor s i).head?.getD i)
            fresh := s.fresh + 1 } (targetsFor s i) [] d fld.errors).2,
        false, false⟩ := by
    simp only [validateInput, hf]
    rw [he]
    simp only [Option.getD_some, Bool.false_eq_true, if_false, hrun]
  refine ⟨by rw [hvi], by rw [hvi], ?_, ?_⟩
  · intro j hj
    rw [hvi]
    dsimp only
    have hjmem : j ∈ targetsFor s i := List.elem_iff.mp hj
    have hjl : j < s.fields.length := mem_targetsFor_lt s i j hi hjmem
    have hef1 : (applyAt (targetsFor s i)
        (fun f => { f with deferredTok := some s.fresh }) s.fields)[e]?
        = some { efld with deferredTok := some s.fresh } := by
      rw [getElem?_applyAt, hef]
      simp [hcont, hmem]
    have hjf1 : (applyAt (targetsFor s i)
        (fun f => { f with deferredTok := some s.fresh }) s.fields)[j]?
        = some { s.fields[j] with deferredTok := some s.fresh } := by
      rw [getElem?_applyAt, List.getElem?_eq_getElem hjl]
      simp [hj, hjmem]
    exact donePart_nil_effects _ (targetsFor s i) d fld.errors e _ he hef1 j _ hj hjf1
  · intro fs2 f2 k v hg pre post errs
    exact collectGo_skip fs2 f2 k v hg pre post errs

/-- An empty optional field declaring several validator keys. -/
def c5exField : Field :=
  { baseField with dataMinlength := some 3, dataMatch := some "zz", hasFeedback := true }

/-- The engine of the C5 witness. -/
def c5exState : VState := mkState [c5exField] []

/-- Witness for C5 at a concrete state: the pass over the empty optional
field stores the empty error list and leaves the group unmarked. -/
theorem c5_witness :
    jsTruthy (getValueF c5exState.fields c5exField) = false ∧
    c5exField.required = false ∧
    (((validateInput c5exState 0 true false).state.fields[0]?).map Field.errors
        = some (some []) ∧
     ((validateInput c5exState 0 true false).state.fields[0]?).map Field.groupError
        = some false) :=
  ⟨rfl, rfl,
   (c5_empty_optional_skips c5exState 0 0 c5exField c5exField true rfl rfl rfl rfl
      rfl).2.2.1 0 rfl⟩

/-! ## Claim C1 -/

/-- When `runValidators` aborts on a validator exception, the state it
leaves behind is the input state with only the stored deferred replaced
on the target set (the exception escapes before anything else happens). -/
theorem runValidators_threw (s : VState) (e : Nat) (tgs : List Nat) (s1 : VState)
    (h : runValidators s e tgs = (s1, .threw)) :
    s1 = { s with
      fields := applyAt tgs (fun f => { f with deferredTok := some s.fresh }) s.fields
      rejected := rejectStored s e
      fresh := s.fresh + 1 } := by
  unfold runValidators at h
  dsimp only at h
  cases hq : (applyAt tgs (fun f => { f with deferredTok := some s.fresh }) s.fields)[e]? with
  | none =>
    rw [hq] at h
    cases h
  | some fld =>
    rw [hq] at h
    dsimp only at h
    cases hc : collectErrors
        (applyAt tgs (fun f => { f with deferredTok := some s.fresh }) s.fields) fld
        (validatorsOf { s with
          fields := applyAt tgs (fun f => { f with deferredTok := some s.fresh }) s.fields
          rejected := rejectStored s e
          fresh := s.fresh + 1 }) with
    | error u =>
      rw [hc] at h
      dsimp only at h
      injection h with h1 h2
      exact h1.symm
    | ok errors =>
      rw [hc] at h
      dsimp only at h
      split at h <;> (injection h with h1 h2; cases h2)

/-- C1 (amended): if a validator predicate throws during a pass, the
engine does not catch it — the pass aborts at that validator.  No error
is recorded or displayed anywhere: every field's stored error list,
help-block content and group marking are left unchanged, fields outside
the pass's target set are completely untouched, and the submit-control
state and pending `done` callbacks are unchanged.  Only the aborted
pass's freshly stored (and now dead) deferred differs. -/
theorem c1_throw_aborts (s : VState) (i : Nat) (d : Bool)
    (hi : i < s.fields.length)
    (ht : (validateInput s i d false).threw = true) :
    (validateInput s i d false).events =
      [Evt.validate ((targetsFor s i).head?.getD i)] ∧
    (validateInput s i d false).state.dones = s.dones ∧
    (validateInput s i d false).state.btnDisabled = s.btnDisabled ∧
    (∀ j : Nat, ((validateInput s i d false).state.fields[j]?).map Field.errors
        = (s.fields[j]?).map Field.errors) ∧
    (∀ j : Nat, ((validateInput s i d false).state.fields[j]?).map Field.blockHtml
        = (s.fields[j]?).map Field.blockHtml) ∧
    (∀ j : Nat, ((validateInput s i d false).state.fields[j]?).map Field.groupError
        = (s.fields[j]?).map Field.groupError) ∧
    (∀ j, (targetsFor s i).contains j = false →
      (validateInput s i d false).state.fields[j]? = s.fields[j]?) := by
  have hf := List.getElem?_eq_getElem hi
  simp only [validateInput, hf] at ht ⊢
  rcases hrv : runValidators s ((targetsFor s i).head?.getD i) (targetsFor s i)
    with ⟨s1, out⟩
  rw [hrv] at ht
  cases out with
  | resolved errors => simp at ht
  | pendingRemote tok => simp at ht
  | threw =>
    have hs1 := runValidators_threw s _ _ s1 hrv
    subst hs1
    refine ⟨rfl, rfl, rfl, ?_, ?_, ?_, ?_⟩
    · intro j
      exact proj_applyAt Field.errors (fun f => { f with deferredTok := some s.fresh })
        (fun _ => rfl) (targetsFor s i) s.fields j
    · intro j
      exact proj_applyAt Field.blockHtml (fun f => { f with deferredTok := some s.fresh })
        (fun _ => rfl) (targetsFor s i) s.fields j
    · intro j
      exact proj_applyAt Field.groupError (fun f => { f with deferredTok := some s.fresh })
        (fun _ => rfl) (targetsFor s i) s.fields j
    · intro j hj
      show (applyAt (targetsFor s i)
        (fun f => { f with deferredTok := some s.fresh }) s.fields)[j]? = s.fields[j]?
      rw [getElem?_applyAt]
      cases s.fields[j]? with
      | none => rfl
      | some f =>
        simp only [Option.map_some']
        rw [if_neg]
        intro hmem
        rw [hmem] at hj
        exact Bool.noConfusion hj

/-- The spec scenario's throwing custom validator for key "coupon". -/
def couponThrowing : ValidatorFn := fun _ _ => .exn

/-- A later registered custom validator that would report an error. -/
def otherAfter : ValidatorFn := fun _ _ => .res (some "other-error")

/-- The "coupon" field with value "ABC", declaring both custom keys. -/
def c1exField : Field := { baseField with value := "ABC", dataCustom := ["coupon", "other"] }

/-- The engine with the throwing custom validator registered before a
second custom validator. -/
def c1exState : VState :=
  mkState [c1exField] [("coupon", couponThrowing), ("other", otherAfter)]

/-- Counterexample to C1 as stated: on input "ABC" the "coupon" validator
throws; the claim predicts the remaining validator still runs (which, run
on its own, would report "other-error") and the pass completes.  In fact
the exception escapes `runValidators`: the pass aborts, and nothing is
stored on the field. -/
theorem c1_counterexample :
    (validateInput c1exState 0 false false).threw = true ∧
    ((validateInput c1exState 0 false false).state.fields[0]?).map Field.errors
      = some none ∧
    collectErrors c1exState.fields c1exField (validatorsOf c1exState) = .error () ∧
    collectErrors c1exState.fields c1exField
      (extendObj VALIDATORS [("other", otherAfter)]) = .ok ["other-error"] :=
  ⟨rfl, rfl, rfl, rfl⟩

/-- Witness for C1 (amended) at the concrete throwing scenario. -/
theorem c1_witness :
    (validateInput c1exState 0 false false).threw = true ∧
    (∀ j : Nat, ((validateInput c1exState 0 false false).state.fields[j]?).map Field.errors
        = (c1exState.fields[j]?).map Field.errors) :=
  ⟨rfl, (c1_throw_aborts c1exState 0 false (by decide) rfl).2.2.2.1⟩

/-! ## Claim C2 -/

/-- C2 (amended): the submission's default action is prevented iff the
full-form validate's synchronous passes completed without a validator
exception AND, at that synchronous moment — before any still-pending
remote check resolves — at least one required field has an empty
(trimmed) value or at least one field's stored error list is non-empty.
A validator exception escapes `onSubmit`, aborting the remaining passes,
and the default action is then never prevented.  The state the gate
reads is exactly the state the (possibly aborted) full-form validate
leaves behind. -/
theorem c2_submit_gate_amended (s : VState) :
    ((onSubmit s).2.1 = true ↔
      ((onSubmit s).2.2 = false ∧
        ((∃ f, f ∈ (onSubmit s).1.fields ∧ f.required = true ∧
            incompleteVal (getValueF (onSubmit s).1.fields f) = true) ∨
         (∃ f, f ∈ (onSubmit s).1.fields ∧ f.errors.getD [] ≠ [])))) ∧
    (onSubmit s).1 = (validateAll s).1 := by
  have hne : ∀ l : List String, (l.isEmpty = false) ↔ l ≠ [] := by
    intro l
    cases l <;> simp
  rcases hva : validateAll s with ⟨s1, b⟩
  cases b with
  | true =>
    constructor
    · simp [onSubmit, hva]
    · simp [onSubmit, hva]
  | false =>
    constructor
    · simp [onSubmit, hva, isIncomplete, hasErrors, List.any_eq_true,
        List.mem_filter, Bool.or_eq_true, and_assoc, hne]
    · simp [onSubmit, hva]

/-- A field with a truthy value, no synchronous errors and a declared
remote check. -/
def c2exField : Field := { baseField with value := "v", dataRemote := some "/chk" }

/-- The engine of the remote-race half of the C2 counterexample. -/
def c2exState : VState := mkState [c2exField] []

/-- A field declaring the throwing custom validator. -/
def c2ceThrowField : Field := { baseField with value := "x", dataCustom := ["boom"] }

/-- A second field carrying a stale non-empty stored error list. -/
def c2ceStaleField : Field := { baseField with errors := some ["old"] }

/-- The engine of the exception half of the C2 counterexample. -/
def c2ceState : VState :=
  mkState [c2ceThrowField, c2ceStaleField] [("boom", couponThrowing)]

/-- Counterexample to C2 as stated, and to an unconditional gate iff.
Remote-race half: submitting `c2exState` is NOT prevented (the
synchronous gate sees no empty required field and no stored errors — the
remote check is still pending, nothing was stored), yet when the pass
settles (the remote check fails) the field's stored error list is
non-empty and the form is complete, so at settle time the claim's
condition holds while the default action was not prevented.
Exception half: on `c2ceState` the first field's validator throws, the
exception escapes `onSubmit` before `preventDefault` and before the
second field is validated, so the submission proceeds although a field
holds a non-empty stored error list — forcing the no-exception condition
of the amendment. -/
theorem c2_counterexample :
    (onSubmit c2exState).2.1 = false ∧
    ((onSubmit c2exState).1.fields[0]?).map Field.errors = some none ∧
    hasErrors (applyRemoteResult (onSubmit c2exState).1 0 true "boom") = true ∧
    isIncomplete (applyRemoteResult (onSubmit c2exState).1 0 true "boom") = false ∧
    ((applyRemoteResult (onSubmit c2exState).1 0 true "boom").fields[0]?).map Field.errors
      = some (some ["boom"]) ∧
    (onSubmit c2ceState).2.2 = true ∧
    (onSubmit c2ceState).2.1 = false ∧
    hasErrors (onSubmit c2ceState).1 = true :=
  ⟨rfl, rfl, rfl, rfl, rfl, rfl, rfl, rfl⟩

/-! ## Claim C9 -/

/-- When `runValidators` resolves synchronously, the state component of
its result is the input state with the stored deferred replaced on the
target set (the remote branch was not taken). -/
theorem runValidators_resolved (s : VState) (e : Nat) (tgs : List Nat) (s1 : VState)
    (errors : List String) (h : runValidators s e tgs = (s1, .resolved errors)) :
    s1 = { s with
      fields := applyAt tgs (fun f => { f with deferredTok := some s.fresh }) s.fields
      rejected := rejectStored s e
      fresh := s.fresh + 1 } := by
  unfold runValidators at h
  dsimp only at h
  cases hq : (applyAt tgs (fun f => { f with deferredTok := some s.fresh }) s.fields)[e]? with
  | none =>
    rw [hq] at h
    dsimp only at h
    injection h with h1 h2
    exact h1.symm
  | some fld =>
    rw [hq] at h
    dsimp only at h
    cases hc : collectErrors
        (applyAt tgs (fun f => { f with deferredTok := some s.fresh }) s.fields) fld
        (validatorsOf { s with
          fields := applyAt tgs (fun f => { f with deferredTok := some s.fresh }) s.fields
          rejected := rejectStored s e
          fresh := s.fresh + 1 }) with
    | error u =>
      rw [hc] at h
      dsimp only at h
      injection h with h1 h2
      cases h2
    | ok errs2 =>
      rw [hc] at h
      dsimp only at h
      split at h
      · injection h with h1 h2
        cases h2
      · injection h with h1 h2
        exact h1.symm

/-- C9: a radio-kind field's value reads true exactly when some checked
radio shares its name (given the name group is homogeneous, as radio
groups are), and a pass triggered on one radio of the group that resolves
synchronously stores one and the same error list on every field of the
name group, not only on the triggering one. -/
theorem c9_radio_group (s : VState) (i : Nat) (fld : Field) (d : Bool)
    (hf : s.fields[i]? = some fld)
    (hk : fld.kind = FieldKind.radio)
    (hhom : ∀ g ∈ s.fields, g.name = fld.name → g.kind = FieldKind.radio)
    (hnp : (validateInput s i d false).pending = false)
    (hnt : (validateInput s i d false).threw = false) :
    (jsTruthy (getValueF s.fields fld) = true ↔
      ∃ g ∈ s.fields, g.name = fld.name ∧ g.kind = FieldKind.radio ∧ g.checked = true) ∧
    ∃ E : List String, ∀ (j : Nat) (fj : Field), s.fields[j]? = some fj →
      fj.name = fld.name →
      ((validateInput s i d false).state.fields[j]?).map Field.errors = some (some E) := by
  constructor
  · have hgv : getValueF s.fields fld = JSVal.bool (s.fields.any (fun g =>
        g.name == fld.name && !(g.kind == FieldKind.text) && g.checked)) := by
      unfold getValueF
      rw [hk]
    rw [hgv]
    show (s.fields.any _) = true ↔ _
    rw [List.any_eq_true]
    constructor
    · rintro ⟨g, hg, hp⟩
      simp only [Bool.and_eq_true, beq_iff_eq] at hp
      exact ⟨g, hg, hp.1.1, hhom g hg hp.1.1, hp.2⟩
    · rintro ⟨g, hg, hn, hkr, hc⟩
      refine ⟨g, hg, ?_⟩
      simp [hn, hkr, hc]
  · have htg : targetsFor s i = nameTargets s.fields fld.name := by
      unfold targetsFor
      rw [hf]
      dsimp only
      rw [hk]
      simp
    simp only [validateInput, hf] at hnt hnp ⊢
    rcases hrv : runValidators s ((targetsFor s i).head?.getD i) (targetsFor s i)
      with ⟨s1, out⟩
    cases out with
    | threw =>
      rw [hrv] at hnt
      simp at hnt
    | pendingRemote tok =>
      rw [hrv] at hnp
      simp at hnp
    | resolved errors =>
      simp only [hrv]
      refine ⟨errors, ?_⟩
      intro j fj hfj hname
      have hjmem : j ∈ targetsFor s i := by
        rw [htg, mem_nameTargets, hfj]
        simp [hname]
      have hjc : (targetsFor s i).contains j = true := List.elem_iff.mpr hjmem
      have hs1 := runValidators_resolved s _ _ s1 errors hrv
      subst hs1
      simp only [Bool.false_eq_true, if_false]
      rw [errors_donePart, getElem?_applyAt, hfj]
      simp [hjc, hjmem]

/-- An unchecked, required radio of the group "grp". -/
def c9exRadio1 : Field :=
  { baseField with name := "grp", kind := .radio, required := true }

/-- A checked radio of the same group. -/
def c9exRadio2 : Field :=
  { baseField with name := "grp", kind := .radio, checked := true }

/-- A radio group of two plus an unrelated text field. -/
def c9exState : VState := mkState [c9exRadio1, c9exRadio2, baseField] []

/-- Witness for C9 at a concrete radio group: a pass on the first radio
yields a shared stored error list for the whole group. -/
theorem c9_witness :
    (validateInput c9exState 0 false false).pending = false ∧
    (validateInput c9exState 0 false false).threw = false ∧
    ((jsTruthy (getValueF c9exState.fields c9exRadio1) = true ↔
      ∃ g ∈ c9exState.fields, g.name = c9exRadio1.name ∧
        g.kind = FieldKind.radio ∧ g.checked = true) ∧
     ∃ E : List String, ∀ (j : Nat) (fj : Field), c9exState.fields[j]? = some fj →
       fj.name = c9exRadio1.name →
       ((validateInput c9exState 0 false false).state.fields[j]?).map Field.errors
         = some (some E)) :=
  ⟨rfl, rfl,
   c9_radio_group c9exState 0 c9exRadio1 false rfl rfl (by decide) rfl rfl⟩

/-! ## Claim C3 -/

/-- When `runValidators` schedules a remote check, the pending deferred's
token is the state's fresh counter, and the state component is the
deferred-replaced state passed through `defer`. -/
theorem runValidators_pending (s : VState) (e : Nat) (tgs : List Nat) (s1 : VState)
    (tok : Nat) (h : runValidators s e tgs = (s1, .pendingRemote tok)) :
    tok = s.fresh ∧
    s1 = defer { s with
      fields := applyAt tgs (fun f => { f with deferredTok := some s.fresh }) s.fields
      rejected := rejectStored s e
      fresh := s.fresh + 1 } (.remoteGet tgs s.fresh) := by
  unfold runValidators at h
  dsimp only at h
  cases hq : (applyAt tgs (fun f => { f with deferredTok := some s.fresh }) s.fields)[e]? with
  | none =>
    rw [hq] at h
    dsimp only at h
    injection h with h1 h2
    cases h2
  | some fld =>
    rw [hq] at h
    dsimp only at h
    cases hc : collectErrors
        (applyAt tgs (fun f => { f with deferredTok := some s.fresh }) s.fields) fld
        (validatorsOf { s with
          fields := applyAt tgs (fun f => { f with deferredTok := some s.fresh }) s.fields
          rejected := rejectStored s e
          fresh := s.fresh + 1 }) with
    | error u =>
      rw [hc] at h
      dsimp only at h
      injection h with h1 h2
      cases h2
    | ok errs2 =>
      rw [hc] at h
      dsimp only at h
      split at h
      · injection h with h1 h2
        injection h2 with h3
        exact ⟨h3.symm, h1.symm⟩
      · injection h with h1 h2
        cases h2

/-- `toggleSubmit` never touches the pending `done` callbacks. -/
theorem dones_toggleSubmit (s : VState) : (toggleSubmit s).dones = s.dones := by
  unfold toggleSubmit
  split <;> rfl

/-- `showErrors` never touches the pending `done` callbacks. -/
theorem dones_showErrors (s : VState) (tgs : List Nat) :
    (showErrors s tgs).dones = s.dones := by
  unfold showErrors
  cases tgs.head? with
  | none => rfl
  | some t0 =>
    dsimp only
    cases s.fields[t0]? with
    | none => rfl
    | some f0 =>
      dsimp only
      split <;> rfl

/-- `clearErrors` never touches the pending `done` callbacks. -/
theorem dones_clearErrors (s : VState) (tgs : List Nat) :
    (clearErrors s tgs).dones = s.dones := by
  unfold clearErrors
  cases tgs.head? with
  | none => rfl
  | some t0 =>
    dsimp only
    cases s.fields[t0]? with
    | none => rfl
    | some f0 => rfl

/-- `clearTimeout` never touches the pending `done` callbacks. -/
theorem dones_clearTimeoutJS (s : VState) (h : Option Nat) :
    (clearTimeoutJS s h).dones = s.dones := by
  unfold clearTimeoutJS
  cases h <;> rfl

/-- A fired timer callback never touches the pending `done` callbacks. -/
theorem dones_runPayload (s : VState) (pl : TimerPayload) :
    (runPayload s pl).dones = s.dones := by
  cases pl with
  | showErrs tgs => exact dones_showErrors s tgs
  | remoteGet tgs tok => rfl

/-- `defer` never touches the pending `done` callbacks. -/
theorem dones_defer (s : VState) (pl : TimerPayload) :
    (defer s pl).dones = s.dones := by
  unfold defer
  split
  · exact dones_runPayload s pl
  · dsimp only
    rw [dones_clearTimeoutJS]

/-- The `done` continuation never touches the list of pending `done`
callbacks. -/
theorem dones_donePart (s : VState) (tgs : List Nat) (errors : List String)
    (de : Bool) (pe : Option (List String)) :
    (donePart s tgs errors de pe).1.dones = s.dones := by
  unfold donePart
  dsimp only
  rw [dones_toggleSubmit]
  split
  · split
    · rw [dones_defer]
    · rw [dones_showErrors]
  · rw [dones_clearErrors]

/-- The stored deferred of every field survives the `done` continuation
unchanged. -/
theorem deferredTok_donePart (s : VState) (tgs : List Nat) (errors : List String)
    (de : Bool) (pe : Option (List String)) (j : Nat) :
    ((donePart s tgs errors de pe).1.fields[j]?).map Field.deferredTok
      = (s.fields[j]?).map Field.deferredTok :=
  proj_donePart Field.deferredTok (fun _ _ _ => rfl)
    (by intro gv f; unfold clearErrsF; dsimp only; split <;> (try split) <;> rfl)
    (fun _ => rfl) (fun _ _ _ => rfl) (fun _ _ => rfl) s tgs errors de pe j

/-- The stored deferred of every field survives `defer` unchanged. -/
theorem deferredTok_defer (s : VState) (pl : TimerPayload) (j : Nat) :
    ((defer s pl).fields[j]?).map Field.deferredTok
      = (s.fields[j]?).map Field.deferredTok :=
  proj_defer Field.deferredTok (fun _ _ _ => rfl) (fun _ => rfl) (fun _ _ _ => rfl) s pl j

/-- A field with a pending remote check (deferred token 0). -/
def c3exField : Field :=
  { baseField with value := "v", dataRemote := some "/chk", deferredTok := some 0 }

/-- An engine with one outstanding remote check for that field. -/
def c3exState : VState :=
  { mkState [c3exField] [] with
    dones := [⟨0, 0, [0], false, none⟩], fresh := 1 }

/-- `toggleSubmit` never rejects or un-rejects a deferred. -/
theorem rejected_toggleSubmit (s : VState) : (toggleSubmit s).rejected = s.rejected := by
  unfold toggleSubmit
  split <;> rfl

/-- `showErrors` never rejects or un-rejects a deferred. -/
theorem rejected_showErrors (s : VState) (tgs : List Nat) :
    (showErrors s tgs).rejected = s.rejected := by
  unfold showErrors
  cases tgs.head? with
  | none => rfl
  | some t0 =>
    dsimp only
    cases s.fields[t0]? with
    | none => rfl
    | some f0 =>
      dsimp only
      split <;> rfl

/-- `clearErrors` never rejects or un-rejects a deferred. -/
theorem rejected_clearErrors (s : VState) (tgs : List Nat) :
    (clearErrors s tgs).rejected = s.rejected := by
  unfold clearErrors
  cases tgs.head? with
  | none => rfl
  | some t0 =>
    dsimp only
    cases s.fields[t0]? with
    | none => rfl
    | some f0 => rfl

/-- `clearTimeout` never rejects or un-rejects a deferred. -/
theorem rejected_clearTimeoutJS (s : VState) (h : Option Nat) :
    (clearTimeoutJS s h).rejected = s.rejected := by
  unfold clearTimeoutJS
  cases h <;> rfl

/-- A fired timer callback never rejects or un-rejects a deferred. -/
theorem rejected_runPayload (s : VState) (pl : TimerPayload) :
    (runPayload s pl).rejected = s.rejected := by
  cases pl with
  | showErrs tgs => exact rejected_showErrors s tgs
  | remoteGet tgs tok => rfl

/-- `defer` never rejects or un-rejects a deferred. -/
theorem rejected_defer (s : VState) (pl : TimerPayload) :
    (defer s pl).rejected = s.rejected := by
  unfold defer
  split
  · exact rejected_runPayload s pl
  · dsimp only
    rw [rejected_clearTimeoutJS]

/-- The `done` continuation never rejects or un-rejects a deferred. -/
theorem rejected_donePart (s : VState) (tgs : List Nat) (errors : List String)
    (de : Bool) (pe : Option (List String)) :
    (donePart s tgs errors de pe).1.rejected = s.rejected := by
  unfold donePart
  dsimp only
  rw [rejected_toggleSubmit]
  split
  · split
    · rw [rejected_defer]
    · rw [rejected_showErrors]
  · rw [rejected_clearErrors]

/-- A remote result whose deferred has been rejected is discarded
entirely: resolving a rejected deferred is a no-op. -/
theorem applyRemote_rejected (st : VState) (tok : Nat) (failed : Bool) (msg : String)
    (h : st.rejected.contains tok = true) :
    applyRemoteResult st tok failed msg = st := by
  have hm : tok ∈ st.rejected := List.elem_iff.mp h
  unfold applyRemoteResult
  simp [h, hm]

/-- Counterexample to C3 as stated.  `c3exState` holds one outstanding
remote check (token 0) for its field.  `reset()` removes the field's
deferred slot WITHOUT rejecting the deferred (the source's `removeData`
never calls `.reject()`), so after the reset a new validation pass finds
an empty slot and rejects nothing while starting a newer check
(token 1, the field's new current deferred).  When the first check's
response then arrives, its still-live `done` callback fires and stores
the stale error list — the result of a check that is NOT the most
recently started one mutates the field's error state. -/
theorem c3_counterexample :
    ((resetState c3exState).fields[0]?).map Field.deferredTok = some none ∧
    (validateInput (resetState c3exState) 0 false false).pending = true ∧
    ((validateInput (resetState c3exState) 0 false false).state.fields[0]?).map
      Field.deferredTok = some (some 1) ∧
    ((applyRemoteResult ((validateInput (resetState c3exState) 0 false false).state)
        0 true "stale").fields[0]?).map Field.errors = some (some ["stale"]) :=
  ⟨rfl, rfl, rfl, rfl⟩

/-- C3 (amended): starting a new validation pass for a field rejects the
deferred that the field's slot references at that moment, so a prior
outstanding remote check that is still referenced when the new pass
starts is superseded: applying its result afterwards is a complete
no-op.  (The guarantee is keyed to the referenced deferred: a check
orphaned by an intervening `reset()` — which removes the slot without
rejecting — escapes it, see the counterexample.) -/
theorem c3_supersede_referenced (s : VState) (i : Nat) (d failed : Bool) (msg : String)
    (hi : i < s.fields.length)
    (r : DoneInfo) (hr : r ∈ s.dones)
    (hslot : ((s.fields[(targetsFor s i).head?.getD i]?).bind Field.deferredTok)
      = some r.tok) :
    applyRemoteResult ((validateInput s i d false).state) r.tok failed msg
      = (validateInput s i d false).state := by
  have hf := List.getElem?_eq_getElem hi
  have hrej : rejectStored s ((targetsFor s i).head?.getD i) = r.tok :: s.rejected := by
    unfold rejectStored
    rw [hslot]
  simp only [validateInput, hf]
  rcases hrv : runValidators s ((targetsFor s i).head?.getD i) (targetsFor s i)
    with ⟨s1, out⟩
  cases out with
  | threw =>
    have hs1 := runValidators_threw s _ _ s1 hrv
    simp only [hrv, Bool.false_eq_true, if_false]
    apply applyRemote_rejected
    rw [hs1]
    show (rejectStored s ((targetsFor s i).head?.getD i)).contains r.tok = true
    rw [hrej]
    simp
  | resolved errors =>
    have hs1 := runValidators_resolved s _ _ s1 errors hrv
    simp only [hrv, Bool.false_eq_true, if_false]
    apply applyRemote_rejected
    rw [rejected_donePart, hs1]
    show (rejectStored s ((targetsFor s i).head?.getD i)).contains r.tok = true
    rw [hrej]
    simp
  | pendingRemote tok =>
    have hs1 := (runValidators_pending s _ _ s1 tok hrv).2
    simp only [hrv, Bool.false_eq_true, if_false]
    apply applyRemote_rejected
    show s1.rejected.contains r.tok = true
    rw [hs1, rejected_defer]
    show (rejectStored s ((targetsFor s i).head?.getD i)).contains r.tok = true
    rw [hrej]
    simp

/-- Witness for C3 (amended): the outstanding check of `c3exState` is
still referenced by the field's slot, so after a new pass on the field
its late result is a no-op. -/
theorem c3_witness :
    (⟨0, 0, [0], false, none⟩ : DoneInfo) ∈ c3exState.dones ∧
    ((c3exState.fields[(targetsFor c3exState 0).head?.getD 0]?).bind Field.deferredTok
      = some 0) ∧
    applyRemoteResult ((validateInput c3exState 0 false false).state) 0 true "late"
      = (validateInput c3exState 0 false false).state :=
  ⟨by decide, by decide,
   c3_supersede_referenced c3exState 0 false true "late" (by decide)
     ⟨0, 0, [0], false, none⟩ (by decide) (by decide)⟩

/-! ## Claim C7 -/

/-- The help-block discipline: either the original content was never
saved and the block still shows it, or the saved
`data('bs.validator.originalContent')` is exactly the pre-validation
content `o`. -/
def BlockInv (o : String) (f : Field) : Prop :=
  (f.blockOrig = none ∧ f.blockHtml = o) ∨ f.blockOrig = some o

/-- The block discipline, lifted to the field list against the
constructor-time field list. -/
def FieldsInv (fs0 fs : List Field) : Prop :=
  fs.length = fs0.length ∧
  ∀ (j : Nat) (f f0 : Field), fs[j]? = some f → fs0[j]? = some f0 →
    BlockInv f0.blockHtml f

theorem blockInv_showErrsF (b : Bool) (errs : List String) (o : String) (f : Field)
    (h : BlockInv o f) : BlockInv o (showErrsF b errs f) := by
  rcases h with ⟨h1, h2⟩ | h1
  · right
    show some (f.blockOrig.getD f.blockHtml) = some o
    rw [h1, h2]
    rfl
  · right
    show some (f.blockOrig.getD f.blockHtml) = some o
    rw [h1]
    rfl

theorem clearErrsF_blockOrig (gv : Bool) (f : Field) :
    (clearErrsF gv f).blockOrig = f.blockOrig := by
  unfold clearErrsF
  dsimp only
  split <;> (try split) <;> rfl

theorem clearErrsF_blockHtml (gv : Bool) (f : Field) :
    (clearErrsF gv f).blockHtml = f.blockOrig.getD f.blockHtml := by
  unfold clearErrsF
  dsimp only
  split <;> (try split) <;> rfl

theorem blockInv_clearErrsF (gv : Bool) (o : String) (f : Field)
    (h : BlockInv o f) : BlockInv o (clearErrsF gv f) := by
  rcases h with ⟨h1, h2⟩ | h1
  · left
    rw [clearErrsF_blockOrig, clearErrsF_blockHtml, h1, h2]
    exact ⟨rfl, rfl⟩
  · right
    rw [clearErrsF_blockOrig, h1]

theorem blockInv_stable (g : Field → Field)
    (ho : ∀ f, (g f).blockOrig = f.blockOrig)
    (hh : ∀ f, (g f).blockHtml = f.blockHtml)
    (o : String) (f : Field) (h : BlockInv o f) : BlockInv o (g f) := by
  rcases h with ⟨h1, h2⟩ | h1
  · left
    rw [ho, hh, h1, h2]
    exact ⟨rfl, rfl⟩
  · right
    rw [ho, h1]

theorem fieldsInv_applyAt (fs0 : List Field) (tgs : List Nat) (g : Field → Field)
    (hg : ∀ o f, BlockInv o f → BlockInv o (g f)) (fs : List Field)
    (h : FieldsInv fs0 fs) : FieldsInv fs0 (applyAt tgs g fs) := by
  obtain ⟨hlen, hinv⟩ := h
  refine ⟨by rw [length_applyAt, hlen], ?_⟩
  intro j f f0 hf hf0
  rw [getElem?_applyAt] at hf
  cases hq : fs[j]? with
  | none => rw [hq] at hf; cases hf
  | some fj =>
    rw [hq] at hf
    simp only [Option.map_some'] at hf
    have hbase := hinv j fj f0 hq hf0
    split at hf
    · rw [Option.some_inj] at hf
      rw [← hf]
      exact hg _ _ hbase
    · rw [Option.some_inj] at hf
      rw [← hf]
      exact hbase

theorem fieldsInv_map (fs0 : List Field) (g : Field → Field)
    (hg : ∀ o f, BlockInv o f → BlockInv o (g f)) (fs : List Field)
    (h : FieldsInv fs0 fs) : FieldsInv fs0 (fs.map g) := by
  obtain ⟨hlen, hinv⟩ := h
  refine ⟨by rw [List.length_map, hlen], ?_⟩
  intro j f f0 hf hf0
  rw [List.getElem?_map] at hf
  cases hq : fs[j]? with
  | none => rw [hq] at hf; cases hf
  | some fj =>
    rw [hq] at hf
    simp only [Option.map_some', Option.some_inj] at hf
    rw [hf.symm]
    exact hg _ _ (hinv j fj f0 hq hf0)

theorem fieldsInv_showErrors (fs0 : List Field) (s : VState) (tgs : List Nat)
    (h : FieldsInv fs0 s.fields) : FieldsInv fs0 (showErrors s tgs).fields := by
  unfold showErrors
  cases tgs.head? with
  | none => exact h
  | some t0 =>
    dsimp only
    cases s.fields[t0]? with
    | none => exact h
    | some f0 =>
      dsimp only
      split
      · exact h
      · exact fieldsInv_applyAt fs0 tgs _ (blockInv_showErrsF _ _) s.fields h

theorem fieldsInv_clearErrors (fs0 : List Field) (s : VState) (tgs : List Nat)
    (h : FieldsInv fs0 s.fields) : FieldsInv fs0 (clearErrors s tgs).fields := by
  unfold clearErrors
  cases tgs.head? with
  | none => exact h
  | some t0 =>
    dsimp only
    cases s.fields[t0]? with
    | none => exact h
    | some f0 => exact fieldsInv_applyAt fs0 tgs _ (blockInv_clearErrsF _) s.fields h

theorem fieldsInv_clearTimeoutJS (fs0 : List Field) (s : VState) (hh : Option Nat)
    (h : FieldsInv fs0 s.fields) : FieldsInv fs0 (clearTimeoutJS s hh).fields := by
  unfold clearTimeoutJS
  cases hh with
  | none => exact h
  | some h2 =>
    refine fieldsInv_map fs0 _ ?_ s.fields h
    intro o f hb
    split
    · exact blockInv_stable _ (fun _ => rfl) (fun _ => rfl) o f hb
    · exact hb

theorem fieldsInv_runPayload (fs0 : List Field) (s : VState) (pl : TimerPayload)
    (h : FieldsInv fs0 s.fields) : FieldsInv fs0 (runPayload s pl).fields := by
  cases pl with
  | showErrs tgs => exact fieldsInv_showErrors fs0 s tgs h
  | remoteGet tgs tok => exact h

theorem fieldsInv_defer (fs0 : List Field) (s : VState) (pl : TimerPayload)
    (h : FieldsInv fs0 s.fields) : FieldsInv fs0 (defer s pl).fields := by
  unfold defer
  split
  · exact fieldsInv_runPayload fs0 s pl h
  · dsimp only
    refine fieldsInv_applyAt fs0 _ _ ?_ _ (fieldsInv_clearTimeoutJS fs0 s _ h)
    exact blockInv_stable _ (fun _ => rfl) (fun _ => rfl)

theorem fieldsInv_donePart (fs0 : List Field) (s : VState) (tgs : List Nat)
    (errors : List String) (de : Bool) (pe : Option (List String))
    (h : FieldsInv fs0 s.fields) :
    FieldsInv fs0 (donePart s tgs errors de pe).1.fields := by
  unfold donePart
  dsimp only
  rw [proj_toggleSubmit]
  have h1 : FieldsInv fs0 (applyAt tgs (fun f => { f with errors := some errors })
      s.fields) := by
    refine fieldsInv_applyAt fs0 tgs _ ?_ s.fields h
    exact blockInv_stable _ (fun _ => rfl) (fun _ => rfl)
  split
  · split
    · exact fieldsInv_defer fs0 _ _ h1
    · exact fieldsInv_showErrors fs0 _ _ h1
  · exact fieldsInv_clearErrors fs0 _ _ h1

theorem fieldsInv_validateInput (fs0 : List Field) (s : VState) (i : Nat) (d c : Bool)
    (h : FieldsInv fs0 s.fields) :
    FieldsInv fs0 ((validateInput s i d c).state).fields := by
  unfold validateInput
  cases hq : s.fields[i]? with
  | none => exact h
  | some fld =>
    dsimp only
    cases c with
    | true => exact h
    | false =>
      simp only [Bool.false_eq_true, if_false]
      rcases hrv : runValidators s ((targetsFor s i).head?.getD i) (targetsFor s i)
        with ⟨s1, out⟩
      cases out with
      | threw =>
        simp only [hrv]
        have hs1 := runValidators_threw s _ _ s1 hrv
        rw [hs1]
        refine fieldsInv_applyAt fs0 _ _ ?_ _ h
        exact blockInv_stable _ (fun _ => rfl) (fun _ => rfl)
      | pendingRemote tok =>
        simp only [hrv]
        have hs1 := (runValidators_pending s _ _ s1 tok hrv).2
        show FieldsInv fs0 s1.fields
        rw [hs1]
        refine fieldsInv_defer fs0 _ _ ?_
        refine fieldsInv_applyAt fs0 _ _ ?_ _ h
        exact blockInv_stable _ (fun _ => rfl) (fun _ => rfl)
      | resolved errors =>
        simp only [hrv]
        have hs1 := runValidators_resolved s _ _ s1 errors hrv
        show FieldsInv fs0 (donePart s1 (targetsFor s i) errors d fld.errors).1.fields
        rw [hs1]
        refine fieldsInv_donePart fs0 _ _ _ _ _ ?_
        refine fieldsInv_applyAt fs0 _ _ ?_ _ h
        exact blockInv_stable _ (fun _ => rfl) (fun _ => rfl)

theorem fieldsInv_toggleSubmit (fs0 : List Field) (s : VState)
    (h : FieldsInv fs0 s.fields) : FieldsInv fs0 (toggleSubmit s).fields := by
  rw [proj_toggleSubmit]
  exact h

theorem fieldsInv_onInput (fs0 : List Field) (s : VState) (i : Nat) (fo c : Bool)
    (h : FieldsInv fs0 s.fields) : FieldsInv fs0 (onInput s i fo c).fields := by
  unfold onInput
  dsimp only
  split
  · exact fieldsInv_validateInput fs0 s i _ c h
  · exact fieldsInv_toggleSubmit fs0 _ (fieldsInv_validateInput fs0 s i _ c h)

theorem fieldsInv_validateAllGo (fs0 : List Field) (l : List Nat) (s : VState)
    (h : FieldsInv fs0 s.fields) : FieldsInv fs0 (validateAllGo s l).1.fields := by
  induction l generalizing s with
  | nil => exact h
  | cons a l ih =>
    unfold validateAllGo
    dsimp only
    split
    · exact fieldsInv_validateInput fs0 s a false false h
    · exact ih _ (fieldsInv_validateInput fs0 s a false false h)

theorem fieldsInv_validateAll (fs0 : List Field) (s : VState)
    (h : FieldsInv fs0 s.fields) : FieldsInv fs0 (validateAll s).1.fields := by
  unfold validateAll
  rcases hgo : validateAllGo s (List.range s.fields.length) with ⟨s1, b⟩
  have h1 : FieldsInv fs0 s1.fields := by
    have h2 := fieldsInv_validateAllGo fs0 (List.range s.fields.length) s h
    rw [hgo] at h2
    exact h2
  cases b with
  | true =>
    simp only [hgo]
    exact h1
  | false =>
    simp only [hgo]
    exact fieldsInv_toggleSubmit fs0 s1 h1

theorem fieldsInv_resetState (fs0 : List Field) (s : VState)
    (h : FieldsInv fs0 s.fields) : FieldsInv fs0 (resetState s).fields := by
  refine fieldsInv_map fs0 _ ?_ s.fields h
  intro o f hb
  rcases hb with ⟨h1, h2⟩ | h1
  · left
    refine ⟨rfl, ?_⟩
    show f.blockOrig.getD f.blockHtml = o
    rw [h1, h2]
    rfl
  · left
    refine ⟨rfl, ?_⟩
    show f.blockOrig.getD f.blockHtml = o
    rw [h1]
    rfl

theorem fieldsInv_fireTimerOp (fs0 : List Field) (s : VState) (i : Nat)
    (h : FieldsInv fs0 s.fields) : FieldsInv fs0 (fireTimerOp s i).fields := by
  unfold fireTimerOp
  cases s.fields[i]? with
  | none => exact h
  | some f =>
    dsimp only
    cases f.timerPayload with
    | none => exact h
    | some pl =>
      cases f.timeoutData with
      | none => exact h
      | some hh =>
        refine fieldsInv_runPayload fs0 _ pl ?_
        refine fieldsInv_map fs0 _ ?_ s.fields h
        intro o g hb
        split
        · exact blockInv_stable _ (fun _ => rfl) (fun _ => rfl) o g hb
        · exact hb

theorem fieldsInv_applyRemoteResult (fs0 : List Field) (s : VState) (tok : Nat)
    (failed : Bool) (msg : String) (h : FieldsInv fs0 s.fields) :
    FieldsInv fs0 (applyRemoteResult s tok failed msg).fields := by
  unfold applyRemoteResult
  split
  · exact h
  · cases s.dones.find? (fun d => d.tok == tok) with
    | none => exact h
    | some info =>
      dsimp only
      cases s.fields[info.fieldIdx]? with
      | none => exact h
      | some fld =>
        dsimp only
        exact fieldsInv_donePart fs0 _ _ _ _ _ h

theorem fieldsInv_matchTargetInput (fs0 : List Field) (s : VState) (dep : Nat)
    (h : FieldsInv fs0 s.fields) : FieldsInv fs0 (matchTargetInput s dep).fields := by
  unfold matchTargetInput
  cases s.fields[dep]? with
  | none => exact h
  | some dfld =>
    dsimp only
    split
    · exact fieldsInv_onInput fs0 s dep false false h
    · exact h

theorem fieldsInv_step (fs0 : List Field) (s : VState) (op : Op)
    (h : FieldsInv fs0 s.fields) : FieldsInv fs0 (step s op).fields := by
  cases op with
  | input i fo c => exact fieldsInv_onInput fs0 s i fo c h
  | submit =>
    show FieldsInv fs0 (onSubmit s).1.fields
    unfold onSubmit
    rcases hva : validateAll s with ⟨s1, b⟩
    have h1 : FieldsInv fs0 s1.fields := by
      have h2 := fieldsInv_validateAll fs0 s h
      rw [hva] at h2
      exact h2
    cases b with
    | true =>
      simp only [hva]
      exact h1
    | false =>
      simp only [hva]
      exact h1
  | formReset => exact fieldsInv_resetState fs0 s h
  | fireTimer i => exact fieldsInv_fireTimerOp fs0 s i h
  | remote tok failed msg => exact fieldsInv_applyRemoteResult fs0 s tok failed msg h
  | targetInput dep => exact fieldsInv_matchTargetInput fs0 s dep h
  | setValue i v c =>
    refine fieldsInv_applyAt fs0 [i] _ ?_ s.fields h
    exact blockInv_stable _ (fun _ => rfl) (fun _ => rfl)

theorem fieldsInv_run (fs0 : List Field) (ops : List Op) (s : VState)
    (h : FieldsInv fs0 s.fields) : FieldsInv fs0 (run s ops).fields := by
  induction ops generalizing s with
  | nil => exact h
  | cons op ops ih =>
    simp only [run, List.foldl_cons]
    exact ih (step s op) (fieldsInv_step fs0 s op h)

/-- C7: from any engine state reachable by any sequence of external
events from a constructor state (one where no help-block original has
been saved yet), `reset()` clears every field's stored error list,
removes the stored deferred, cancels every pending debounce timer,
removes all error and success group markings and feedback icons, restores
every error-display region to its constructor-time content, and
re-enables the submit control — regardless of how many fields were in
error. -/
theorem c7_reset_restores (s0 : VState)
    (h0 : ∀ f ∈ s0.fields, f.blockOrig = none) (ops : List Op) :
    (resetState (run s0 ops)).btnDisabled = false ∧
    (resetState (run s0 ops)).fields.length = s0.fields.length ∧
    ∀ (j : Nat) (f f0 : Field),
      (resetState (run s0 ops)).fields[j]? = some f → s0.fields[j]? = some f0 →
      f.errors = none ∧ f.deferredTok = none ∧ f.timerPayload = none ∧
      f.groupError = false ∧ f.groupSuccess = false ∧ f.feedback = none ∧
      f.blockOrig = none ∧ f.blockHtml = f0.blockHtml := by
  have hbase : FieldsInv s0.fields s0.fields := by
    refine ⟨rfl, ?_⟩
    intro j f f0 hf hf0
    rw [hf] at hf0
    rw [Option.some_inj] at hf0
    subst hf0
    left
    exact ⟨h0 f (List.getElem?_mem hf), rfl⟩
  have hrun := fieldsInv_run s0.fields ops s0 hbase
  refine ⟨rfl, ?_, ?_⟩
  · show ((run s0 ops).fields.map _).length = s0.fields.length
    rw [List.length_map]
    exact hrun.1
  · intro j f f0 hf hf0
    have hmap : ((run s0 ops).fields[j]?).map (fun f =>
        { f with
          feedback := none
          errors := none
          deferredTok := none
          timerPayload := none
          blockHtml := f.blockOrig.getD f.blockHtml
          blockOrig := none
          groupError := false
          groupSuccess := false }) = some f := by
      rw [← List.getElem?_map]
      exact hf
    obtain ⟨g, hg, hgf⟩ := Option.map_eq_some'.mp hmap
    have hb := hrun.2 j g f0 hg hf0
    rw [← hgf]
    refine ⟨rfl, rfl, rfl, rfl, rfl, rfl, rfl, ?_⟩
    show g.blockOrig.getD g.blockHtml = f0.blockHtml
    rcases hb with ⟨h1, h2⟩ | h1
    · rw [h1, h2]
      rfl
    · rw [h1]
      rfl

/-- A required field with a minlength rule and feedback iconography. -/
def c7exField : Field :=
  { baseField with
    value := "ab"
    required := true
    dataMinlength := some 5
    hasFeedback := true }

/-- The engine of the C7 witness. -/
def c7exState : VState := mkState [c7exField] []

/-- Witness for C7: after a defocus pass and a submission attempt (both
of which store errors, render them and mark the group), reset restores
everything at the concrete state. -/
theorem c7_witness :
    (∀ f ∈ c7exState.fields, f.blockOrig = none) ∧
    (resetState (run c7exState [Op.input 0 true false, Op.submit])).btnDisabled
      = false :=
  ⟨by decide,
   (c7_reset_restores c7exState (by decide) [Op.input 0 true false, Op.submit]).1⟩

end BsValidator
